import Mathlib

/-!
Verification of the docomatic section-tree engine and its service layer.

The development shallowly embeds the Python sources:
  * `docomatic/models/{document,section,link}.py`  — record types,
  * `docomatic/storage/repositories.py`            — query functions over flat stores,
  * `docomatic/services/section/{validation,tree_operations,reordering}.py`,
  * `docomatic/services/{section_service,document_service,link_service}.py`,
  * `docomatic/services/link/validation.py`.

SQLAlchemy sessions are modelled by a pair of a committed store and the
current in-transaction store (`SessionState`); `commit` publishes the current
store, `rollback` restores the committed one.  Queries read the current store
(flushed, uncommitted rows are visible to queries in the source as well).
Timestamps and the opaque metadata bags are omitted: no claim mentions them.
Machine-generated UUIDs are passed in as explicit arguments.
-/

namespace Docomatic

/-- `docomatic/models/section.py` — class `Section` (timestamps/metadata omitted). -/
structure Sec where
  id : String
  document_id : String
  parent_section_id : Option String
  heading : String
  body : String
  order_index : Int
deriving Repr, DecidableEq

/-- `docomatic/models/document.py` — class `Document` (timestamps/metadata omitted). -/
structure Doc where
  id : String
  title : String
deriving Repr, DecidableEq

/-- `docomatic/models/link.py` — class `Link` (timestamps/metadata omitted). -/
structure Link where
  id : String
  section_id : Option String
  document_id : Option String
  link_type : String
  link_target : String
deriving Repr, DecidableEq

/-- `docomatic/exceptions.py` — the four service exception classes.
`ValidationError` carries its message and the offending field;
`NotFoundError` the resource kind and id; `DuplicateError` the resource
kind, conflicting field and value; `DatabaseError` a message. -/
inductive Err where
  | validationErr (message : String) (field : String)
  | notFound (resource_type : String) (resource_id : String)
  | duplicate (resource_type : String) (field : String) (value : String)
  | databaseErr (message : String)
deriving Repr, DecidableEq

instance {α : Type} [DecidableEq α] : DecidableEq (Except Err α) := fun a b =>
  match a, b with
  | .ok x, .ok y =>
    if h : x = y then .isTrue (by rw [h]) else .isFalse (fun hh => by cases hh; exact h rfl)
  | .error x, .error y =>
    if h : x = y then .isTrue (by rw [h]) else .isFalse (fun hh => by cases hh; exact h rfl)
  | .ok _, .error _ => .isFalse (fun hh => by cases hh)
  | .error _, .ok _ => .isFalse (fun hh => by cases hh)

/-- The three relations of the schema (a flat relational store). -/
structure DB where
  documents : List Doc
  sections : List Sec
  links : List Link
deriving Repr, DecidableEq

/-- A SQLAlchemy session: the committed store plus the current
in-transaction view (flushed rows included).  `commit` publishes
`current`; `rollback` discards it. -/
structure SessionState where
  committed : DB
  current : DB
deriving Repr, DecidableEq

/-- `session.commit()`. -/
def commitS (st : SessionState) : SessionState :=
  { st with committed := st.current }

/-- `session.rollback()`. -/
def rollbackS (st : SessionState) : SessionState :=
  { st with current := st.committed }

/-! ### Python string stripping

`str.strip()` with no argument removes leading and trailing whitespace;
the ASCII whitespace characters are modelled (the claims only exercise
ASCII input). -/

def isPyWhitespace (c : Char) : Bool :=
  c = ' ' || c = '\t' || c = '\n' || c = '\r' || c = '\x0b' || c = '\x0c'

/-- Python `s.strip()` (ASCII whitespace). -/
def pstrip (s : String) : String :=
  String.mk (((s.data.dropWhile isPyWhitespace).reverse.dropWhile isPyWhitespace).reverse)

/-! ### SectionValidator (`docomatic/services/section/validation.py`) -/

/-- `SectionValidator.validate_heading`.  The `isinstance` check is
subsumed by typing.  `HEADING_MIN_LENGTH = 1`, `HEADING_MAX_LENGTH = 500`. -/
def validateHeading (heading : String) : Except Err Unit :=
  if heading = "" || pstrip heading = "" then
    .error (.validationErr "Heading is required and cannot be empty" "heading")
  else if heading.length < 1 then
    .error (.validationErr "Heading must be at least 1 character(s)" "heading")
  else if heading.length > 500 then
    .error (.validationErr "Heading must be at most 500 characters" "heading")
  else .ok ()

/-- `SectionValidator.validate_id` (`ID_MAX_LENGTH = 255`). -/
def validateSectionId (section_id : String) : Except Err Unit :=
  if section_id = "" || pstrip section_id = "" then
    .error (.validationErr "Section ID cannot be empty" "id")
  else if section_id.length > 255 then
    .error (.validationErr "Section ID must be at most 255 characters" "id")
  else .ok ()

/-- `SectionValidator.validate_body` — only an `isinstance` check in the
source, which typing subsumes. -/
def validateBody (_body : String) : Except Err Unit := .ok ()

/-! ### DocumentService validators (`docomatic/services/document_service.py`) -/

/-- `DocumentService._validate_title` (`TITLE_MIN_LENGTH = 1`, `TITLE_MAX_LENGTH = 500`). -/
def validateTitle (title : String) : Except Err Unit :=
  if title = "" || pstrip title = "" then
    .error (.validationErr "Title is required and cannot be empty" "title")
  else if title.length < 1 then
    .error (.validationErr "Title must be at least 1 character(s)" "title")
  else if title.length > 500 then
    .error (.validationErr "Title must be at most 500 characters" "title")
  else .ok ()

/-- `DocumentService._validate_id` (`ID_MAX_LENGTH = 255`). -/
def validateDocumentId (document_id : String) : Except Err Unit :=
  if document_id = "" || pstrip document_id = "" then
    .error (.validationErr "Document ID cannot be empty" "id")
  else if document_id.length > 255 then
    .error (.validationErr "Document ID must be at most 255 characters" "id")
  else .ok ()

/-! ### Repository reads (`docomatic/storage/repositories.py`)

The store lists keep insertion order, matching row order in the backing
table; `ORDER BY order_index` is modelled by a stable sort on
`order_index` (ties keep insertion order, the observed behaviour). -/

/-- Comparison used for `ORDER BY order_index`. -/
def secLE (a b : Sec) : Prop := a.order_index ≤ b.order_index

instance : DecidableRel secLE := fun a b => inferInstanceAs (Decidable (a.order_index ≤ b.order_index))

instance : IsTotal Sec secLE := ⟨fun a b => Int.le_total a.order_index b.order_index⟩

instance : IsTrans Sec secLE := ⟨fun _ _ _ h1 h2 => le_trans h1 h2⟩

/-- `ORDER BY order_index` (stable). -/
def sortByOrderIndex (l : List Sec) : List Sec := List.insertionSort secLE l

/-- `SectionRepository.get_by_id` / `session.get(Section, id)`. -/
def findSection (db : DB) (section_id : String) : Option Sec :=
  db.sections.find? (fun s => s.id == section_id)

/-- `DocumentRepository.get_by_id`. -/
def findDocument (db : DB) (document_id : String) : Option Doc :=
  db.documents.find? (fun d => d.id == document_id)

/-- `LinkRepository.get_by_id`. -/
def findLink (db : DB) (link_id : String) : Option Link :=
  db.links.find? (fun l => l.id == link_id)

/-- `SectionRepository.get_children`: `WHERE parent_section_id = ? ORDER BY order_index`. -/
def getChildren (db : DB) (parent_section_id : String) : List Sec :=
  sortByOrderIndex (db.sections.filter (fun s => s.parent_section_id == some parent_section_id))

/-- `SectionRepository.get_by_document_id` with `flat=False`: top-level
sections (`parent_section_id IS NULL`) of the document, ordered by `order_index`. -/
def getTopLevelSections (db : DB) (document_id : String) : List Sec :=
  sortByOrderIndex (db.sections.filter
    (fun s => s.document_id == document_id && s.parent_section_id == none))

/-- `SectionRepository.get_by_document_id` with `flat=True`: all sections of
the document, ordered by `order_index`. -/
def getFlatSections (db : DB) (document_id : String) : List Sec :=
  sortByOrderIndex (db.sections.filter (fun s => s.document_id == document_id))

/-- `LinkRepository.get_by_section_id`. -/
def getLinksBySection (db : DB) (section_id : String) : List Link :=
  db.links.filter (fun l => l.section_id == some section_id)

/-- `LinkRepository.get_by_document_id`. -/
def getLinksByDocument (db : DB) (document_id : String) : List Link :=
  db.links.filter (fun l => l.document_id == some document_id)

/-- `session.flush()` after mutating a loaded `Section`: replace the row
with the given id (ids are a primary key, hence unique). -/
def replaceSection (db : DB) (s : Sec) : DB :=
  { db with sections := db.sections.map (fun t => if t.id == s.id then s else t) }

/-- `SectionRepository.create` (`session.add` + `flush`): appends the row. -/
def addSection (db : DB) (s : Sec) : DB :=
  { db with sections := db.sections ++ [s] }

/-- `DocumentRepository.create`. -/
def addDocument (db : DB) (d : Doc) : DB :=
  { db with documents := db.documents ++ [d] }

/-- `LinkRepository.create`. -/
def addLink (db : DB) (l : Link) : DB :=
  { db with links := db.links ++ [l] }

/-! ### Store well-formedness

Facts guaranteed by the schema and by write-time validation, used as
hypotheses: primary-key uniqueness of section ids, an acyclic parent
forest (witnessed by a depth function, as every write-reachable store
admits one), parents resolving within the same document, and valid ids. -/

/-- Section ids are a primary key. -/
def NodupSectionIds (db : DB) : Prop := (db.sections.map Sec.id).Nodup

instance (db : DB) : Decidable (NodupSectionIds db) :=
  inferInstanceAs (Decidable (db.sections.map Sec.id).Nodup)

/-- One section's parent edge increases `depth` by exactly one. -/
def parentEdgeOk (depth : String → Nat) (c : Sec) : Prop :=
  ∀ p, c.parent_section_id = some p → depth c.id = depth p + 1

instance (depth : String → Nat) (c : Sec) : Decidable (parentEdgeOk depth c) :=
  match h : c.parent_section_id with
  | none => .isTrue (by intro p hp; rw [h] at hp; exact Option.noConfusion hp)
  | some q =>
    if hq : depth c.id = depth q + 1 then
      .isTrue (by intro p hp; rw [h] at hp; injection hp with h2; rw [← h2]; exact hq)
    else .isFalse (fun hall => hq (hall q h))

/-- `depth` witnesses acyclicity: every stored parent edge increases depth
by exactly one. -/
def HasDepth (db : DB) (depth : String → Nat) : Prop :=
  ∀ c ∈ db.sections, parentEdgeOk depth c

instance (db : DB) (depth : String → Nat) : Decidable (HasDepth db depth) :=
  List.decidableBAll (parentEdgeOk depth) db.sections

/-- One section's parent pointer resolves to a stored section of the same
document. -/
def parentRowOk (db : DB) (c : Sec) : Prop :=
  ∀ p, c.parent_section_id = some p →
    ∃ t ∈ db.sections, t.id = p ∧ t.document_id = c.document_id

instance (db : DB) (c : Sec) : Decidable (parentRowOk db c) :=
  match h : c.parent_section_id with
  | none => .isTrue (by intro p hp; rw [h] at hp; exact Option.noConfusion hp)
  | some q =>
    if hq : ∃ t ∈ db.sections, t.id = q ∧ t.document_id = c.document_id then
      .isTrue (by intro p hp; rw [h] at hp; injection hp with h2; rw [← h2]; exact hq)
    else .isFalse (fun hall => hq (hall q h))

/-- Every stored parent pointer resolves to a stored section of the same
document (enforced at create/move time by the services). -/
def ParentsResolve (db : DB) : Prop :=
  ∀ c ∈ db.sections, parentRowOk db c

instance (db : DB) : Decidable (ParentsResolve db) :=
  List.decidableBAll (parentRowOk db) db.sections

/-- All stored section ids pass `SectionValidator.validate_id`
(they were validated or generated as UUIDs on creation). -/
def ValidStoredSectionIds (db : DB) : Prop :=
  ∀ c ∈ db.sections, validateSectionId c.id = .ok ()

instance (db : DB) : Decidable (ValidStoredSectionIds db) :=
  inferInstanceAs (Decidable (∀ c ∈ db.sections, validateSectionId c.id = .ok ()))

/-! ### Cycle detection (`docomatic/services/section/tree_operations.py`)

`SectionTreeBuilder.would_create_cycle` walks the descendant set of the
section through `get_children`, carrying a shared visited set.  The Python
recursion terminates because the visited set grows; here the same
computation carries a fuel argument, and the wrapper passes
`db.sections.length + 1`, which the visited-set discipline can never
exhaust (each nested call adds a fresh stored id to `visited`). -/

/-- The `for child in children` loop of `get_all_descendant_ids`:
skip visited children, otherwise mark the child visited, recurse through
`recurse` (the traversal one fuel level down), and accumulate `child.id`
followed by its descendants.  Returns the found ids with the updated
visited set. -/
def descendChildren (recurse : String → List String → List String × List String) :
    List Sec → List String → List String × List String
  | [], visited => ([], visited)
  | c :: cs, visited =>
    if c.id ∈ visited then descendChildren recurse cs visited
    else
      let sub := recurse c.id (c.id :: visited)
      let rest := descendChildren recurse cs sub.2
      (c.id :: sub.1 ++ rest.1, rest.2)

/-- Body of `get_all_descendant_ids(node_id, visited)`: returns the
descendant ids found below `node_id` together with the updated visited set. -/
def descendVisit (db : DB) : Nat → String → List String → List String × List String
  | 0, _, visited => ([], visited)
  | fuel + 1, node_id, visited =>
    descendChildren (descendVisit db fuel) (getChildren db node_id) visited

/-- `SectionTreeBuilder.would_create_cycle(section_id, new_parent_id)`. -/
def wouldCreateCycle (db : DB) (section_id : String) (new_parent_id : Option String) : Bool :=
  match new_parent_id with
  | none => false
  | some pid =>
    if section_id == pid then true
    else
      let all_descendants :=
        (descendVisit db (db.sections.length + 1) section_id [section_id]).1
      pid ∈ all_descendants

/-! ### The descendant relation

`Descendant db a x` is the specification-level notion: `x` is the id of a
stored section lying strictly below the section with id `a` in the parent
forest. -/

inductive Descendant (db : DB) (root : String) : String → Prop
  | base {c : Sec} (hc : c ∈ db.sections) (hp : c.parent_section_id = some root) :
      Descendant db root c.id
  | step {p : String} {c : Sec} (hd : Descendant db root p) (hc : c ∈ db.sections)
      (hp : c.parent_section_id = some p) : Descendant db root c.id

/-! ### Section services

`docomatic/services/section/reordering.py` and
`docomatic/services/section_service.py`.  Every public operation takes and
returns a `SessionState`; validation failures return the state untouched,
successes flush into `current` and commit. -/

/-- The sibling-scope query shared by `create_section` and
`SectionReorderer.update_parent`:
`get_children(parent) if parent else get_by_document_id(doc, flat=False)`.
Python truthiness sends both `None` and `""` to the top-level branch. -/
def siblingScope (db : DB) (document_id : String) (parent_section_id : Option String) :
    List Sec :=
  match parent_section_id with
  | some pid => if pid = "" then getTopLevelSections db document_id else getChildren db pid
  | none => getTopLevelSections db document_id

/-- `max(s.order_index for s in siblings) + 1`, or `0` with no siblings. -/
def nextOrderIndex (siblings : List Sec) : Int :=
  match (siblings.map Sec.order_index).max? with
  | none => 0
  | some m => m + 1

/-- `SectionReorderer.update_parent` (`docomatic/services/section/reordering.py`):
look up the section, verify the new parent (existence and same document),
compute the order index when absent, rewrite the section's
`parent_section_id` and `order_index`, flush and commit. -/
def reordererUpdateParent (st : SessionState) (section_id : String)
    (new_parent_section_id : Option String) (order_index : Option Int) :
    Except Err Sec × SessionState :=
  match findSection st.current section_id with
  | none => (.error (.notFound "Section" section_id), st)
  | some sec =>
    let parentCheck : Except Err Unit :=
      match new_parent_section_id with
      | none => .ok ()
      | some pid =>
        match findSection st.current pid with
        | none => .error (.notFound "Section" pid)
        | some new_parent =>
          if new_parent.document_id ≠ sec.document_id then
            .error (.validationErr "New parent section must belong to the same document"
              "new_parent_section_id")
          else .ok ()
    match parentCheck with
    | .error e => (.error e, st)
    | .ok () =>
      let oi : Int :=
        match order_index with
        | some i => i
        | none =>
          let siblings := siblingScope st.current sec.document_id new_parent_section_id
          nextOrderIndex (siblings.filter (fun s => s.id ≠ section_id))
      let sec' := { sec with parent_section_id := new_parent_section_id, order_index := oi }
      let st' := commitS { st with current := replaceSection st.current sec' }
      (.ok sec', st')

/-- `SectionService.update_parent` (`docomatic/services/section_service.py`,
lines 354–388): validate the ids, run the cycle check, then delegate to the
reorderer. -/
def updateParentService (st : SessionState) (section_id : String)
    (new_parent_section_id : Option String) (order_index : Option Int) :
    Except Err Sec × SessionState :=
  match validateSectionId section_id with
  | .error e => (.error e, st)
  | .ok () =>
    let cycleCheck : Except Err Unit :=
      match new_parent_section_id with
      | none => .ok ()
      | some pid =>
        match validateSectionId pid with
        | .error e => .error e
        | .ok () =>
          if wouldCreateCycle st.current section_id (some pid) then
            .error (.validationErr
              "Cannot move section into its own subtree (would create cycle)"
              "new_parent_section_id")
          else .ok ()
    match cycleCheck with
    | .error e => (.error e, st)
    | .ok () => reordererUpdateParent st section_id new_parent_section_id order_index

/-- `SectionService.create_section`.  `generated_id` stands for the
`str(uuid.uuid4())` drawn when no explicit id is supplied. -/
def createSectionService (st : SessionState) (document_id heading body : String)
    (parent_section_id : Option String) (order_index : Option Int)
    (section_id : Option String) (generated_id : String) :
    Except Err Sec × SessionState :=
  match validateHeading heading with
  | .error e => (.error e, st)
  | .ok () =>
  match validateBody body with
  | .error e => (.error e, st)
  | .ok () =>
  match validateSectionId document_id with
  | .error e => (.error e, st)
  | .ok () =>
  let parentCheck : Except Err Unit :=
    match parent_section_id with
    | none => .ok ()
    | some pid =>
      match validateSectionId pid with
      | .error e => .error e
      | .ok () =>
        match findSection st.current pid with
        | none => .error (.notFound "Section" pid)
        | some parent =>
          if parent.document_id ≠ document_id then
            .error (.validationErr "Parent section must belong to the same document"
              "parent_section_id")
          else .ok ()
  match parentCheck with
  | .error e => (.error e, st)
  | .ok () =>
  let idCheck : Except Err String :=
    match section_id with
    | none => .ok generated_id
    | some sid =>
      match validateSectionId sid with
      | .error e => .error e
      | .ok () => .ok sid
  match idCheck with
  | .error e => (.error e, st)
  | .ok sid =>
  match findSection st.current sid with
  | some _ => (.error (.duplicate "Section" "id" sid), st)
  | none =>
  let oi : Int :=
    match order_index with
    | some i => i
    | none => nextOrderIndex (siblingScope st.current document_id parent_section_id)
  let sec : Sec :=
    { id := sid, document_id := document_id, parent_section_id := parent_section_id,
      heading := heading, body := body, order_index := oi }
  let st' := commitS { st with current := addSection st.current sec }
  (.ok sec, st')

/-- Render `None` / a string the way the f-strings in
`reorder_sections` interpolate `parent_section_id`. -/
def optionIdText : Option String → String
  | none => "None"
  | some p => p

/-- The per-section validation loop of `SectionReorderer.reorder_sections`:
every listed id must resolve, and the section must carry the scope's
parent and document. -/
def reorderValidate (db : DB) (parent_section_id : Option String) (document_id : String) :
    List String → Except Err Unit
  | [] => .ok ()
  | sid :: rest =>
    match findSection db sid with
    | none => .error (.notFound "Section" sid)
    | some s =>
      if s.parent_section_id ≠ parent_section_id then
        .error (.validationErr
          ("Section " ++ sid ++ " does not belong to parent " ++ optionIdText parent_section_id)
          "section_order")
      else if s.document_id ≠ document_id then
        .error (.validationErr
          ("Section " ++ sid ++ " does not belong to document " ++ document_id)
          "section_order")
      else reorderValidate db parent_section_id document_id rest

/-- The update loop of `SectionReorderer.reorder_sections`:
`for order_index, section_id in enumerate(section_order)` assigns the
position as the new `order_index` and flushes.  (The lookup cannot miss
after validation; a missing id is skipped to keep the function total.) -/
def reorderApply (db : DB) (idx : Nat) : List String → List Sec × DB
  | [] => ([], db)
  | sid :: rest =>
    match findSection db sid with
    | some s =>
      let s' := { s with order_index := (idx : Int) }
      let res := reorderApply (replaceSection db s') (idx + 1) rest
      (s' :: res.1, res.2)
    | none => reorderApply db (idx + 1) rest

/-- `SectionReorderer.reorder_sections`: reject an empty list, resolve the
scope's document (from the parent, or from the first listed section for the
top-level scope), validate every listed section, then assign 0-based
positions and commit.  (The `sibling_ids` set computed in the source is
dead code and not modelled.) -/
def reordererReorderSections (st : SessionState) (parent_section_id : Option String)
    (section_order : List String) : Except Err (List Sec) × SessionState :=
  match section_order with
  | [] =>
    (.error (.validationErr "section_order must be a non-empty list" "section_order"), st)
  | first :: _ =>
    let docCheck : Except Err String :=
      match parent_section_id with
      | some pid =>
        match findSection st.current pid with
        | none => .error (.notFound "Section" pid)
        | some parent => .ok parent.document_id
      | none =>
        match findSection st.current first with
        | none => .error (.notFound "Section" first)
        | some s => .ok s.document_id
    match docCheck with
    | .error e => (.error e, st)
    | .ok document_id =>
      match reorderValidate st.current parent_section_id document_id section_order with
      | .error e => (.error e, st)
      | .ok () =>
        let res := reorderApply st.current 0 section_order
        (.ok res.1, commitS { st with current := res.2 })

/-- The id-validation loop at the top of `SectionService.reorder_sections`. -/
def validateSectionIdsLoop : List String → Except Err Unit
  | [] => .ok ()
  | sid :: rest =>
    match validateSectionId sid with
    | .error e => .error e
    | .ok () => validateSectionIdsLoop rest

/-- `SectionService.reorder_sections`: the service repeats the non-empty
check, validates each listed id, then delegates to the reorderer. -/
def reorderSectionsService (st : SessionState) (parent_section_id : Option String)
    (section_order : List String) : Except Err (List Sec) × SessionState :=
  match section_order with
  | [] =>
    (.error (.validationErr "section_order must be a non-empty list" "section_order"), st)
  | _ :: _ =>
    match validateSectionIdsLoop section_order with
    | .error e => (.error e, st)
    | .ok () => reordererReorderSections st parent_section_id section_order

/-! ### Cascading deletes

The schema declares `ON DELETE CASCADE` on `sections.parent_section_id`,
`sections.document_id`, `links.section_id` and `links.document_id`
(`docomatic/models/{section,link}.py`).  The cascade is modelled by closing
a seed id set under the child relation and filtering the affected rows. -/

/-- One closure step: add the ids of sections whose parent is already in
the set. -/
def cascadeStep (db : DB) (acc : List String) : List String :=
  acc ++ (db.sections.filter (fun s =>
    (match s.parent_section_id with
     | some p => decide (p ∈ acc) && decide (s.id ∉ acc)
     | none => false : Bool))).map Sec.id

/-- Iterated closure; `db.sections.length` steps always reach the fixpoint. -/
def sectionCascadeClosure (db : DB) : Nat → List String → List String
  | 0, acc => acc
  | fuel + 1, acc => sectionCascadeClosure db fuel (cascadeStep db acc)

/-- The rows deleted by `DELETE FROM documents WHERE id = did`:
sections of the document (via `sections.document_id`) and everything below
them (via `sections.parent_section_id`), plus links of the document or of
any deleted section. -/
def deleteDocumentData (db : DB) (document_id : String) : DB :=
  let removed := sectionCascadeClosure db db.sections.length
    ((db.sections.filter (fun s => s.document_id == document_id)).map Sec.id)
  { documents := db.documents.filter (fun d => d.id ≠ document_id),
    sections := db.sections.filter (fun s => s.id ∉ removed),
    links := db.links.filter (fun l =>
      ¬ (l.document_id = some document_id ∨
         ∃ x, l.section_id = some x ∧ x ∈ removed)) }

/-- The rows deleted by `session.delete(section)`: the subtree below the
section and all links attached to deleted sections. -/
def deleteSectionData (db : DB) (section_id : String) : DB :=
  let removed := sectionCascadeClosure db db.sections.length [section_id]
  { db with
    sections := db.sections.filter (fun s => s.id ∉ removed),
    links := db.links.filter (fun l => ¬ ∃ x, l.section_id = some x ∧ x ∈ removed) }

/-- `SectionService.delete_section`: validate, delete (cascades), commit
only when a row was found. -/
def deleteSectionService (st : SessionState) (section_id : String) :
    Except Err Bool × SessionState :=
  match validateSectionId section_id with
  | .error e => (.error e, st)
  | .ok () =>
    match findSection st.current section_id with
    | none => (.ok false, st)
    | some _ =>
      (.ok true, commitS { st with current := deleteSectionData st.current section_id })

/-! ### Path to root (`SectionRepository.get_path_to_root`)

The source walks `parent_section_id` upward, inserting each visited row at
the front, and stops on a missing row, a `None`/empty parent pointer, or —
in this embedding — exhausted fuel; `db.sections.length + 1` fuel is never
exhausted on the acyclic stores the claims quantify over. -/

def pathToRootGo (db : DB) : Nat → Option Sec → List Sec → List Sec
  | _, none, path => path
  | 0, some current, path => current :: path
  | fuel + 1, some current, path =>
    let path := current :: path
    match current.parent_section_id with
    | some p => if p = "" then path else pathToRootGo db fuel (findSection db p) path
    | none => path

def getPathToRoot (db : DB) (section_id : String) : List Sec :=
  pathToRootGo db (db.sections.length + 1) (findSection db section_id) []

/-! ### Tree materialization (`SectionRepository`)

`get_section_tree_by_document` loads the top-level sections (ordered) and
recursively populates `child_sections` through per-node queries without an
`ORDER BY` (`_load_children_recursive`); a node with its populated
children becomes a `SecTree`. -/

inductive SecTree where
  | node (sec : Sec) (children : List SecTree)

/-- The child query of `_load_children_recursive`
(`WHERE parent_section_id = ?`, no ordering). -/
def childRows (db : DB) (parent_section_id : String) : List Sec :=
  db.sections.filter (fun s => s.parent_section_id == some parent_section_id)

/-- Recursively populate `child_sections` below one section. -/
def buildSubtree (db : DB) : Nat → Sec → SecTree
  | 0, s => .node s []
  | fuel + 1, s => .node s ((childRows db s.id).map (buildSubtree db fuel))

/-- `SectionRepository.get_section_tree_by_document`. -/
def getSectionTreeByDocument (db : DB) (document_id : String) : List SecTree :=
  (getTopLevelSections db document_id).map (buildSubtree db db.sections.length)

/-- Flattening a materialized tree: the node followed by its flattened
children (fueled so that it computes; the fuel matches the builder's). -/
def flattenTree : Nat → SecTree → List Sec
  | 0, .node s _ => [s]
  | fuel + 1, .node s cs => s :: cs.flatMap (flattenTree fuel)

/-- `SectionService.update_section`: validate, look up, overwrite the
provided fields, flush and commit. -/
def updateSectionService (st : SessionState) (section_id : String)
    (heading : Option String) (body : Option String) (order_index : Option Int) :
    Except Err Sec × SessionState :=
  match validateSectionId section_id with
  | .error e => (.error e, st)
  | .ok () =>
  let headingCheck : Except Err Unit :=
    match heading with
    | none => .ok ()
    | some h => validateHeading h
  match headingCheck with
  | .error e => (.error e, st)
  | .ok () =>
  match findSection st.current section_id with
  | none => (.error (.notFound "Section" section_id), st)
  | some sec =>
    let sec := match heading with | none => sec | some h => { sec with heading := h }
    let sec := match body with | none => sec | some b => { sec with body := b }
    let sec := match order_index with | none => sec | some i => { sec with order_index := i }
    let st' := commitS { st with current := replaceSection st.current sec }
    (.ok sec, st')

/-! ### Document service (`docomatic/services/document_service.py`) -/

/-- `str(e)` for the service exceptions, as built by their constructors. -/
def errMessage : Err → String
  | .validationErr m _ => m
  | .notFound rt rid => rt ++ " with ID '" ++ rid ++ "' not found"
  | .duplicate rt f v => rt ++ " with " ++ f ++ " '" ++ v ++ "' already exists"
  | .databaseErr m => m

/-- One entry of the `initial_sections` argument of `create_document`
(a plain dict in the source; absent keys are `none`). -/
structure InitialSectionData where
  id : Option String
  heading : Option String
  body : Option String
  order_index : Option Int
  parent_section_id : Option String
deriving Repr, DecidableEq

/-- `DocumentService._create_initial_sections`: for each entry require
`heading` and `body`, take the given id or the generated UUID (paired with
the entry), validate it with `_validate_id`, validate and resolve a truthy
`parent_section_id` (no same-document check in the source), then flush the
new row.  The store is threaded through so that rows flushed before a
failure remain pending. -/
def createInitialSections (document_id : String) :
    DB → List (InitialSectionData × String) → Except Err Unit × DB
  | db, [] => (.ok (), db)
  | db, (data, gen) :: rest =>
    match data.heading with
    | none => (.error (.validationErr "Section heading is required" "heading"), db)
    | some heading =>
    match data.body with
    | none => (.error (.validationErr "Section body is required" "body"), db)
    | some body =>
    let sid := match data.id with
      | some s => if s = "" then gen else s
      | none => gen
    match validateDocumentId sid with
    | .error e => (.error e, db)
    | .ok () =>
    let parentCheck : Except Err Unit :=
      match data.parent_section_id with
      | none => .ok ()
      | some p =>
        if p = "" then .ok ()
        else
          match validateDocumentId p with
          | .error e => .error e
          | .ok () =>
            match findSection db p with
            | none => .error (.notFound "Section" p)
            | some _ => .ok ()
    match parentCheck with
    | .error e => (.error e, db)
    | .ok () =>
      let sec : Sec :=
        { id := sid, document_id := document_id,
          parent_section_id := data.parent_section_id,
          heading := heading, body := body,
          order_index := data.order_index.getD 0 }
      createInitialSections document_id (addSection db sec) rest

/-- `DocumentService.create_document`.  Validation failures before the
`try` block leave the session untouched.  Inside the `try`,
`DuplicateError` and `ValidationError` are re-raised without a rollback
(rows already flushed stay pending in the open transaction), while every
other exception — `NotFoundError` included — is rolled back and wrapped in
a `DatabaseError`. -/
def createDocumentService (st : SessionState) (title : String)
    (document_id : Option String) (generated_id : String)
    (initial_sections : List (InitialSectionData × String)) :
    Except Err Doc × SessionState :=
  match validateTitle title with
  | .error e => (.error e, st)
  | .ok () =>
  let idCheck : Except Err String :=
    match document_id with
    | none => .ok generated_id
    | some did =>
      match validateDocumentId did with
      | .error e => .error e
      | .ok () => .ok did
  match idCheck with
  | .error e => (.error e, st)
  | .ok did =>
  match findDocument st.current did with
  | some _ => (.error (.duplicate "Document" "id" did), st)
  | none =>
    let doc : Doc := { id := did, title := title }
    let db1 := addDocument st.current doc
    match createInitialSections did db1 initial_sections with
    | (.ok (), db2) => (.ok doc, commitS { st with current := db2 })
    | (.error e, db2) =>
      match e with
      | .validationErr m f => (.error (.validationErr m f), { st with current := db2 })
      | .duplicate rt f v => (.error (.duplicate rt f v), { st with current := db2 })
      | other =>
        (.error (.databaseErr ("Failed to create document: " ++ errMessage other)),
         rollbackS { st with current := db2 })

/-- `DocumentService.update_document`: validate, look up, overwrite the
title when given, flush and commit (the metadata bag is omitted). -/
def updateDocumentService (st : SessionState) (document_id : String)
    (title : Option String) : Except Err Doc × SessionState :=
  match validateDocumentId document_id with
  | .error e => (.error e, st)
  | .ok () =>
  let titleCheck : Except Err Unit :=
    match title with
    | none => .ok ()
    | some t => validateTitle t
  match titleCheck with
  | .error e => (.error e, st)
  | .ok () =>
  match findDocument st.current document_id with
  | none => (.error (.notFound "Document" document_id), st)
  | some doc =>
    let doc := match title with | none => doc | some t => { doc with title := t }
    let db' := { st.current with
      documents := st.current.documents.map (fun d => if d.id == doc.id then doc else d) }
    (.ok doc, commitS { st with current := db' })

/-- `DocumentService.delete_document` with the default
`soft_delete=False, validate_references=True` arguments (the reference
check is a pass in the source): missing document returns `False` without a
write; otherwise the row is deleted with its cascade and committed. -/
def deleteDocumentService (st : SessionState) (document_id : String) :
    Except Err Bool × SessionState :=
  match validateDocumentId document_id with
  | .error e => (.error e, st)
  | .ok () =>
    match findDocument st.current document_id with
    | none => (.ok false, st)
    | some _ =>
      (.ok true, commitS { st with current := deleteDocumentData st.current document_id })

/-! ### Link validation (`docomatic/services/link/validation.py`)

The three target patterns are anchored regular expressions over ASCII
character classes; they are embedded as executable string predicates.
(Python's `$` also matches just before a final newline and `\d` matches
Unicode digits by default; the claims only exercise ASCII-and-newline-free
targets, where the embeddings agree exactly.) -/

/-- `[a-zA-Z0-9_-]`. -/
def isTaskIdChar (c : Char) : Bool :=
  c.isAlpha || c.isDigit || c = '_' || c = '-'

/-- `[a-zA-Z0-9_.-]` (repository names and blob path segments). -/
def isRepoChar (c : Char) : Bool :=
  c.isAlpha || c.isDigit || c = '_' || c = '.' || c = '-'

/-- `[a-f0-9]`. -/
def isLowerHexChar (c : Char) : Bool :=
  c.isDigit || ('a' ≤ c && c ≤ 'f')

/-- Strip a literal character prefix, returning the remainder on a match. -/
def stripLitChars : List Char → List Char → Option (List Char)
  | [], cs => some cs
  | _ :: _, [] => none
  | p :: ps, c :: cs => if c = p then stripLitChars ps cs else none

/-- A literal prefix followed by a non-empty `[a-zA-Z0-9_-]+` id. -/
def litThenIdOk (lit : List Char) (t : String) : Bool :=
  match stripLitChars lit t.data with
  | some rest => rest ≠ [] && rest.all isTaskIdChar
  | none => false

/-- `^todo-rama://(project/task/|task/)[a-zA-Z0-9_-]+$`. -/
def todoRamaTargetOk (t : String) : Bool :=
  litThenIdOk "todo-rama://project/task/".data t ||
  litThenIdOk "todo-rama://task/".data t

/-- `^bucket-o-facts://fact/[a-zA-Z0-9_-]+$`. -/
def bucketTargetOk (t : String) : Bool :=
  litThenIdOk "bucket-o-facts://fact/".data t

/-- Split a character list at a separator character. -/
def splitOnChar (sep : Char) : List Char → List (List Char)
  | [] => [[]]
  | c :: cs =>
    match splitOnChar sep cs with
    | [] => [[]]
    | g :: gs => if c = sep then [] :: g :: gs else (c :: g) :: gs

/-- `^github://<owner>/<repo>/(commit/<sha>|pull/<digits>|issues/<digits>|blob/<path>)$`
with owner in `[a-zA-Z0-9_-]+`, repo in `[a-zA-Z0-9_.-]+`, sha in
`[a-f0-9]+` and path over the repo class extended with the slash.
Splitting on `/` is faithful because neither the owner nor the repo class
admits a slash, while the blob path may contain them. -/
def githubTargetOk (t : String) : Bool :=
  match splitOnChar '/' t.data with
  | scheme :: host :: owner :: repo :: rest =>
    scheme = "github:".data && host = [] &&
    (owner ≠ [] && owner.all isTaskIdChar) &&
    (repo ≠ [] && repo.all isRepoChar) &&
    ((match rest with
      | [kind, val] =>
        (kind = "commit".data && val ≠ [] && val.all isLowerHexChar) ||
        (kind = "pull".data && val ≠ [] && val.all Char.isDigit) ||
        (kind = "issues".data && val ≠ [] && val.all Char.isDigit)
      | _ => false) ||
     (match rest with
      | kind :: path0 :: path =>
        kind = "blob".data && ¬ (path0 = [] ∧ path = []) &&
        (path0 :: path).all (fun p => p.all isRepoChar)
      | _ => false))
  | _ => false

/-- `LinkValidator.validate_id`. -/
def validateLinkId (link_id : String) : Except Err Unit :=
  if link_id = "" || pstrip link_id = "" then
    .error (.validationErr "Link ID cannot be empty" "id")
  else if link_id.length > 255 then
    .error (.validationErr "Link ID must be at most 255 characters" "id")
  else .ok ()

/-- `LinkValidator.validate_link_type` (`VALID_LINK_TYPES` is a set; the
message's join order is unspecified in the source and fixed here). -/
def validateLinkType (link_type : String) : Except Err Unit :=
  if link_type = "" || pstrip link_type = "" then
    .error (.validationErr "Link type is required and cannot be empty" "link_type")
  else if link_type.length > 50 then
    .error (.validationErr "Link type must be at most 50 characters" "link_type")
  else if link_type ≠ "todo-rama" && link_type ≠ "bucket-o-facts" && link_type ≠ "github" then
    .error (.validationErr "Link type must be one of: todo-rama, bucket-o-facts, github"
      "link_type")
  else .ok ()

/-- `LinkValidator.validate_link_target` (`LINK_TARGET_MAX_LENGTH = 500`). -/
def validateLinkTarget (link_target : String) : Except Err Unit :=
  if link_target = "" || pstrip link_target = "" then
    .error (.validationErr "Link target is required and cannot be empty" "link_target")
  else if link_target.length > 500 then
    .error (.validationErr "Link target must be at most 500 characters" "link_target")
  else .ok ()

/-- `LinkValidator.validate_link_target_format`: per-type pattern checks;
an unrecognized type passes (the function ends without an `else`). -/
def validateLinkTargetFormat (link_type link_target : String) : Except Err Unit :=
  if link_type = "todo-rama" then
    if todoRamaTargetOk link_target then .ok ()
    else .error (.validationErr
      ("Todo-Rama link target must match format: " ++
       "todo-rama://project/task/<task_id> or todo-rama://task/<task_id>") "link_target")
  else if link_type = "bucket-o-facts" then
    if bucketTargetOk link_target then .ok ()
    else .error (.validationErr
      "Bucket-O-Facts link target must match format: bucket-o-facts://fact/<fact_id>"
      "link_target")
  else if link_type = "github" then
    if githubTargetOk link_target then .ok ()
    else .error (.validationErr
      ("GitHub link target must match format: github://owner/repo/commit/<sha>, " ++
       "github://owner/repo/pull/<number>, github://owner/repo/issues/<number>, or " ++
       "github://owner/repo/blob/<path>") "link_target")
  else .ok ()

/-! ### Link service (`docomatic/services/link_service.py`) -/

/-- The duplicate scan of `link_section`: any existing link of the same
section with the same `(link_type, link_target)` pair. -/
def sectionHasDuplicateLink (db : DB) (section_id link_type link_target : String) : Bool :=
  (getLinksBySection db section_id).any
    (fun l => l.link_type == link_type && l.link_target == link_target)

/-- The duplicate scan of `link_document`. -/
def documentHasDuplicateLink (db : DB) (document_id link_type link_target : String) : Bool :=
  (getLinksByDocument db document_id).any
    (fun l => l.link_type == link_type && l.link_target == link_target)

/-- `LinkService.link_section`: validate the section id, resolve the
section, validate type and target, scan the owner's links for a duplicate
`(type, target)` pair, settle the link id, reject id collisions, then
flush the new link (carrying the owning section's document) and commit. -/
def linkSectionService (st : SessionState) (section_id link_type link_target : String)
    (link_id : Option String) (generated_id : String) :
    Except Err Link × SessionState :=
  match validateLinkId section_id with
  | .error e => (.error e, st)
  | .ok () =>
  match findSection st.current section_id with
  | none => (.error (.notFound "Section" section_id), st)
  | some sec =>
  match validateLinkType link_type with
  | .error e => (.error e, st)
  | .ok () =>
  match validateLinkTarget link_target with
  | .error e => (.error e, st)
  | .ok () =>
  match validateLinkTargetFormat link_type link_target with
  | .error e => (.error e, st)
  | .ok () =>
  if sectionHasDuplicateLink st.current section_id link_type link_target then
    (.error (.duplicate "Link" "section_id+link_type+link_target"
      (section_id ++ "+" ++ link_type ++ "+" ++ link_target)), st)
  else
  let idCheck : Except Err String :=
    match link_id with
    | none => .ok generated_id
    | some lid =>
      match validateLinkId lid with
      | .error e => .error e
      | .ok () => .ok lid
  match idCheck with
  | .error e => (.error e, st)
  | .ok lid =>
  match findLink st.current lid with
  | some _ => (.error (.duplicate "Link" "id" lid), st)
  | none =>
    let link : Link :=
      { id := lid, section_id := some section_id,
        document_id := some sec.document_id,
        link_type := link_type, link_target := link_target }
    (.ok link, commitS { st with current := addLink st.current link })

/-- `LinkService.link_document`: as `link_section`, with the document as
owner and `section_id = None` on the new row. -/
def linkDocumentService (st : SessionState) (document_id link_type link_target : String)
    (link_id : Option String) (generated_id : String) :
    Except Err Link × SessionState :=
  match validateLinkId document_id with
  | .error e => (.error e, st)
  | .ok () =>
  match findDocument st.current document_id with
  | none => (.error (.notFound "Document" document_id), st)
  | some _ =>
  match validateLinkType link_type with
  | .error e => (.error e, st)
  | .ok () =>
  match validateLinkTarget link_target with
  | .error e => (.error e, st)
  | .ok () =>
  match validateLinkTargetFormat link_type link_target with
  | .error e => (.error e, st)
  | .ok () =>
  if documentHasDuplicateLink st.current document_id link_type link_target then
    (.error (.duplicate "Link" "document_id+link_type+link_target"
      (document_id ++ "+" ++ link_type ++ "+" ++ link_target)), st)
  else
  let idCheck : Except Err String :=
    match link_id with
    | none => .ok generated_id
    | some lid =>
      match validateLinkId lid with
      | .error e => .error e
      | .ok () => .ok lid
  match idCheck with
  | .error e => (.error e, st)
  | .ok lid =>
  match findLink st.current lid with
  | some _ => (.error (.duplicate "Link" "id" lid), st)
  | none =>
    let link : Link :=
      { id := lid, section_id := none,
        document_id := some document_id,
        link_type := link_type, link_target := link_target }
    (.ok link, commitS { st with current := addLink st.current link })

/-- `LinkService.unlink_section` / `unlink_document` (identical bodies in
the source): validate, delete the row when present and commit. -/
def unlinkService (st : SessionState) (link_id : String) :
    Except Err Bool × SessionState :=
  match validateLinkId link_id with
  | .error e => (.error e, st)
  | .ok () =>
    match findLink st.current link_id with
    | none => (.ok false, st)
    | some _ =>
      let db' := { st.current with links := st.current.links.filter (fun l => l.id ≠ link_id) }
      (.ok true, commitS { st with current := db' })

/-! ### Concrete stores used by the witnesses -/

/-- Document `D1` with a three-level chain `Intro → Details → Deep`, a
second top-level section `Side`, a document-level link and a link on
`Deep`. -/
def dbW : DB :=
  { documents := [{ id := "D1", title := "Doc one" }],
    sections :=
      [{ id := "Intro", document_id := "D1", parent_section_id := none,
         heading := "Intro", body := "", order_index := 0 },
       { id := "Side", document_id := "D1", parent_section_id := none,
         heading := "Side", body := "", order_index := 1 },
       { id := "Details", document_id := "D1", parent_section_id := some "Intro",
         heading := "Details", body := "", order_index := 0 },
       { id := "Deep", document_id := "D1", parent_section_id := some "Details",
         heading := "Deep", body := "", order_index := 0 }],
    links :=
      [{ id := "L1", section_id := none, document_id := some "D1",
         link_type := "todo-rama", link_target := "todo-rama://task/123" },
       { id := "L2", section_id := some "Deep", document_id := some "D1",
         link_type := "github", link_target := "github://o/r/pull/1" }] }

/-- A depth function witnessing that `dbW` is a forest. -/
def depthW : String → Nat :=
  fun i => if i = "Details" then 1 else if i = "Deep" then 2 else 0

/-- The `Intro` row of `dbW`. -/
def secIntroW : Sec :=
  { id := "Intro", document_id := "D1", parent_section_id := none,
    heading := "Intro", body := "", order_index := 0 }

def stW : SessionState := { committed := dbW, current := dbW }

/-- Document `D1` with three top-level sections at order indices 0, 1 and 5. -/
def dbR : DB :=
  { documents := [{ id := "D1", title := "Doc one" }],
    sections :=
      [{ id := "sa", document_id := "D1", parent_section_id := none,
         heading := "A", body := "", order_index := 0 },
       { id := "sb", document_id := "D1", parent_section_id := none,
         heading := "B", body := "", order_index := 1 },
       { id := "sc", document_id := "D1", parent_section_id := none,
         heading := "C", body := "", order_index := 5 }],
    links := [] }

def stR : SessionState := { committed := dbR, current := dbR }

/-- Document `D1` with sections `X` and `Y`; `X` already carries a
`todo-rama` link to task 123. -/
def dbL : DB :=
  { documents := [{ id := "D1", title := "Doc one" }],
    sections :=
      [{ id := "X", document_id := "D1", parent_section_id := none,
         heading := "X", body := "", order_index := 0 },
       { id := "Y", document_id := "D1", parent_section_id := none,
         heading := "Y", body := "", order_index := 1 }],
    links :=
      [{ id := "LX", section_id := some "X", document_id := some "D1",
         link_type := "todo-rama", link_target := "todo-rama://task/123" }] }

def stL : SessionState := { committed := dbL, current := dbL }

/-- Document `D1` with no sections. -/
def dbE : DB :=
  { documents := [{ id := "D1", title := "Doc one" }], sections := [], links := [] }

def stE : SessionState := { committed := dbE, current := dbE }

/-- Position of an id in a list (first match), used to state what the
reorder update loop writes. -/
def posOf : List String → String → Option Nat
  | [], _ => none
  | x :: xs, sid => if x = sid then some 0 else (posOf xs sid).map (· + 1)

/-- What `reorder_sections(…, sids)` does to one stored row: a listed
section gets its 0-based position as `order_index`, anything else is
untouched. -/
def reorderUpdate (sids : List String) (s : Sec) : Sec :=
  match posOf sids s.id with
  | some j => { s with order_index := (j : Int) }
  | none => s

/-- The section table after a reorder. -/
def reorderedSections (db : DB) (sids : List String) : List Sec :=
  db.sections.map (reorderUpdate sids)

/-- The whole store after a reorder: only `sections` changes. -/
def reorderedDB (db : DB) (sids : List String) : DB :=
  { db with sections := reorderedSections db sids }

/-- An `initial_sections` entry whose `heading` key is missing. -/
def badInitialSection : InitialSectionData :=
  { id := some "x1", heading := none, body := some "b",
    order_index := none, parent_section_id := none }

/-! ## Proof development

First the general theory of the descendant relation over a well-formed
store, then the correctness of the traversal in `would_create_cycle`, then
the claims. -/

/-- Two stored sections with equal ids coincide when ids are a primary key. -/
theorem sec_eq_of_id_eq {db : DB} (hn : NodupSectionIds db) {s t : Sec}
    (hs : s ∈ db.sections) (ht : t ∈ db.sections) (hid : s.id = t.id) : s = t :=
  List.inj_on_of_nodup_map hn hs ht hid

/-- The descendant relation is transitive. -/
theorem Descendant.trans {db : DB} {a b x : String}
    (h1 : Descendant db a b) (h2 : Descendant db b x) : Descendant db a x := by
  induction h2 with
  | base hc hp => exact .step h1 hc hp
  | step _ hc hp ih => exact .step ih hc hp

/-- Depth strictly increases from an ancestor to a descendant. -/
theorem Descendant.depth_lt {db : DB} {depth : String → Nat} (hd : HasDepth db depth)
    {a x : String} (h : Descendant db a x) : depth a < depth x := by
  induction h with
  | base hc hp => have := hd _ hc _ hp; omega
  | step _ hc hp ih => have := hd _ hc _ hp; omega

/-- No section is its own descendant in a forest. -/
theorem not_descendant_self {db : DB} {depth : String → Nat} (hd : HasDepth db depth)
    (a : String) : ¬ Descendant db a a :=
  fun h => absurd (h.depth_lt hd) (lt_irrefl _)

/-- A descendant id is a stored id. -/
theorem Descendant.mem_ids {db : DB} {a x : String} (h : Descendant db a x) :
    x ∈ db.sections.map Sec.id := by
  cases h with
  | base hc _ => exact List.mem_map_of_mem _ hc
  | step _ hc _ => exact List.mem_map_of_mem _ hc

/-- Decompose a descendant chain at its first edge: some stored child of
the root either is the descendant or has it below. -/
theorem Descendant.first_edge {db : DB} {a x : String} (h : Descendant db a x) :
    ∃ c ∈ db.sections, c.parent_section_id = some a ∧ (c.id = x ∨ Descendant db c.id x) := by
  induction h with
  | base hc hp => exact ⟨_, hc, hp, .inl rfl⟩
  | @step p c _ hc hp ih =>
    obtain ⟨c0, hc0, hp0, hrest⟩ := ih
    refine ⟨c0, hc0, hp0, .inr ?_⟩
    cases hrest with
    | inl he => exact .base hc (he ▸ hp)
    | inr hdd => exact .step hdd hc hp

/-- Decompose a descendant chain at its last edge. -/
theorem Descendant.last_edge {db : DB} {b v : String} (h : Descendant db b v) :
    ∃ c ∈ db.sections, c.id = v ∧
      ∃ pp, c.parent_section_id = some pp ∧ (pp = b ∨ Descendant db b pp) := by
  cases h with
  | base hc hp => exact ⟨_, hc, rfl, _, hp, .inl rfl⟩
  | step hd hc hp => exact ⟨_, hc, rfl, _, hp, .inr hd⟩

/-- Two ancestors of one node are comparable: the ancestors of a node form
a chain when ids are unique. -/
theorem descendant_comparable {db : DB} (hn : NodupSectionIds db) {a : String} :
    ∀ {v}, Descendant db a v → ∀ {b}, Descendant db b v →
      a = b ∨ Descendant db a b ∨ Descendant db b a := by
  intro v h1
  induction h1 with
  | @base c hc hp =>
    intro b h2
    obtain ⟨c', hc', hid, pp, hpp, hrest⟩ := h2.last_edge
    have hcc : c' = c := sec_eq_of_id_eq hn hc' hc hid
    subst hcc
    rw [hp] at hpp
    injection hpp with hppa
    cases hrest with
    | inl he => exact .inl (by rw [← he, hppa])
    | inr hba => exact .inr (.inr (hppa ▸ hba))
  | @step p c hdp hc hp ih =>
    intro b h2
    obtain ⟨c', hc', hid, pp, hpp, hrest⟩ := h2.last_edge
    have hcc : c' = c := sec_eq_of_id_eq hn hc' hc hid
    subst hcc
    rw [hp] at hpp
    injection hpp with hppp
    cases hrest with
    | inl he => exact .inr (.inl (by rw [← he, ← hppp]; exact hdp))
    | inr hbp => exact ih (hppp ▸ hbp)

/-- Subtrees of distinct siblings are disjoint. -/
theorem sibling_subtrees_disjoint {db : DB} {depth : String → Nat}
    (hn : NodupSectionIds db) (hd : HasDepth db depth) {c c' : Sec}
    (hc : c ∈ db.sections) (hc' : c' ∈ db.sections) {nid : String}
    (hp : c.parent_section_id = some nid) (hp' : c'.parent_section_id = some nid)
    (hne : c.id ≠ c'.id) {v : String}
    (h1 : Descendant db c.id v) (h2 : Descendant db c'.id v) : False := by
  have hdep : depth c.id = depth c'.id := by rw [hd _ hc _ hp, hd _ hc' _ hp']
  rcases descendant_comparable hn h1 h2 with he | hlt | hgt
  · exact hne he
  · exact absurd (hlt.depth_lt hd) (by omega)
  · exact absurd (hgt.depth_lt hd) (by omega)

/-- The depth of a descendant exceeds the ancestor's by at most the number
of stored sections (the connecting chain has pairwise-distinct stored ids). -/
theorem descendant_depth_le {db : DB} {depth : String → Nat}
    (_hn : NodupSectionIds db) (hd : HasDepth db depth) {a x : String}
    (h : Descendant db a x) : depth x ≤ depth a + db.sections.length := by
  suffices h' : ∃ l : List String, (∀ y ∈ l, y ∈ db.sections.map Sec.id) ∧
      l.Pairwise (fun u v => depth u < depth v) ∧
      (∀ u ∈ l, depth u ≤ depth x) ∧
      depth x = depth a + l.length by
    obtain ⟨l, hsub, hpw, _, hlen⟩ := h'
    have hnd : l.Nodup := hpw.imp (fun {u v} hlt => fun he => by rw [he] at hlt; omega)
    have hle := (List.subperm_of_subset hnd (fun y hy => hsub y hy)).length_le
    rw [List.length_map] at hle
    omega
  induction h with
  | @base c hc hp =>
    refine ⟨[c.id], ?_, ?_, ?_, ?_⟩
    · intro y hy
      rw [List.mem_singleton] at hy
      exact hy ▸ List.mem_map_of_mem _ hc
    · simp
    · simp
    · have := hd _ hc _ hp; simp; omega
  | @step p c hdp hc hp ih =>
    obtain ⟨l, hsub, hpw, hub, hlen⟩ := ih
    have hstep := hd _ hc _ hp
    refine ⟨l ++ [c.id], ?_, ?_, ?_, ?_⟩
    · intro y hy
      rcases List.mem_append.1 hy with hy | hy
      · exact hsub y hy
      · rw [List.mem_singleton] at hy
        exact hy ▸ List.mem_map_of_mem _ hc
    · rw [List.pairwise_append]
      refine ⟨hpw, by simp, ?_⟩
      intro u hu v hv
      rw [List.mem_singleton] at hv
      subst hv
      have := hub u hu
      omega
    · intro u hu
      rcases List.mem_append.1 hu with hu | hu
      · have := hub u hu; omega
      · rw [List.mem_singleton] at hu; subst hu; omega
    · rw [List.length_append]
      simp
      omega

/-! ### Membership in the ordered repository queries -/

theorem mem_getChildren_iff {db : DB} {nid : String} {c : Sec} :
    c ∈ getChildren db nid ↔ c ∈ db.sections ∧ c.parent_section_id = some nid := by
  unfold getChildren sortByOrderIndex
  rw [(List.perm_insertionSort secLE _).mem_iff, List.mem_filter]
  simp

theorem mem_getTopLevelSections_iff {db : DB} {did : String} {s : Sec} :
    s ∈ getTopLevelSections db did ↔
      s ∈ db.sections ∧ s.document_id = did ∧ s.parent_section_id = none := by
  unfold getTopLevelSections sortByOrderIndex
  rw [(List.perm_insertionSort secLE _).mem_iff, List.mem_filter]
  simp

theorem mem_getFlatSections_iff {db : DB} {did : String} {s : Sec} :
    s ∈ getFlatSections db did ↔ s ∈ db.sections ∧ s.document_id = did := by
  unfold getFlatSections sortByOrderIndex
  rw [(List.perm_insertionSort secLE _).mem_iff, List.mem_filter]
  simp

theorem getChildren_ids_nodup {db : DB} (hn : NodupSectionIds db) (nid : String) :
    ((getChildren db nid).map Sec.id).Nodup := by
  unfold getChildren sortByOrderIndex
  refine ((List.perm_insertionSort secLE _).map Sec.id).nodup_iff.2 ?_
  exact ((List.filter_sublist db.sections).map Sec.id).nodup hn

/-! ### Correctness of the visited-set traversal on a forest -/

/-- Specification of the child loop, given the specification of the
one-level-deeper traversal.  On a forest, starting from a compatible
visited set, the loop returns exactly the ids of the listed children and
their descendants, and the final visited set adds exactly those ids. -/
theorem descendChildren_spec {db : DB} {depth : String → Nat}
    (hn : NodupSectionIds db) (hd : HasDepth db depth) {fuel : Nat}
    (ihvisit : ∀ nid visited,
      (∀ v, Descendant db nid v → v ∉ visited) →
      (∀ x, Descendant db nid x → depth x < depth nid + fuel) →
      (∀ x, x ∈ (descendVisit db fuel nid visited).1 ↔ Descendant db nid x) ∧
      (∀ x, x ∈ (descendVisit db fuel nid visited).2 ↔ x ∈ visited ∨ Descendant db nid x))
    {nid : String} :
    ∀ (cs : List Sec) (visited : List String),
      (∀ c ∈ cs, c ∈ db.sections ∧ c.parent_section_id = some nid) →
      ((cs.map Sec.id).Nodup) →
      (∀ c ∈ cs, ∀ v, (v = c.id ∨ Descendant db c.id v) → v ∉ visited) →
      (∀ c ∈ cs, ∀ x, Descendant db c.id x → depth x < depth c.id + fuel) →
      (∀ x, x ∈ (descendChildren (descendVisit db fuel) cs visited).1 ↔
        ∃ c ∈ cs, x = c.id ∨ Descendant db c.id x) ∧
      (∀ x, x ∈ (descendChildren (descendVisit db fuel) cs visited).2 ↔
        x ∈ visited ∨ ∃ c ∈ cs, x = c.id ∨ Descendant db c.id x) := by
  intro cs
  induction cs with
  | nil =>
    intro visited _ _ _ _
    constructor <;> intro x <;> simp [descendChildren]
  | cons c cs ihcs =>
    intro visited hcs hnodup hcompat hfuel
    have hchead : c ∈ c :: cs := List.mem_cons_self c cs
    have hcmem : c ∈ db.sections := (hcs c hchead).1
    have hcp : c.parent_section_id = some nid := (hcs c hchead).2
    have hnotv : c.id ∉ visited := hcompat c hchead c.id (.inl rfl)
    have hsubcompat : ∀ v, Descendant db c.id v → v ∉ c.id :: visited := by
      intro v hv hvmem
      rcases List.mem_cons.1 hvmem with rfl | hvv
      · exact not_descendant_self hd _ hv
      · exact hcompat c hchead v (.inr hv) hvv
    obtain ⟨hsub1, hsub2⟩ :=
      ihvisit c.id (c.id :: visited) hsubcompat (hfuel c hchead)
    rw [List.map_cons, List.nodup_cons] at hnodup
    have htailcs : ∀ c' ∈ cs, c' ∈ db.sections ∧ c'.parent_section_id = some nid :=
      fun c' hc' => hcs c' (List.mem_cons_of_mem _ hc')
    have htailcompat : ∀ c' ∈ cs, ∀ v, (v = c'.id ∨ Descendant db c'.id v) →
        v ∉ (descendVisit db fuel c.id (c.id :: visited)).2 := by
      intro c' hc' v hv hvmem
      have hc'mem := (htailcs c' hc').1
      have hc'p := (htailcs c' hc').2
      have hcne : c.id ≠ c'.id := fun he => hnodup.1 (he ▸ List.mem_map_of_mem Sec.id hc')
      have hdc := hd _ hcmem _ hcp
      have hdc' := hd _ hc'mem _ hc'p
      rw [hsub2 v] at hvmem
      rcases hvmem with hvcons | hvdesc
      · rcases List.mem_cons.1 hvcons with rfl | hvv
        · rcases hv with he | hdesc
          · exact hcne he
          · have := hdesc.depth_lt hd; omega
        · exact hcompat c' (List.mem_cons_of_mem _ hc') v hv hvv
      · rcases hv with rfl | hdesc
        · have := hvdesc.depth_lt hd; omega
        · exact sibling_subtrees_disjoint hn hd hcmem hc'mem hcp hc'p hcne hvdesc hdesc
    obtain ⟨hrest1, hrest2⟩ :=
      ihcs (descendVisit db fuel c.id (c.id :: visited)).2 htailcs hnodup.2 htailcompat
        (fun c' hc' => hfuel c' (List.mem_cons_of_mem _ hc'))
    have hstep : descendChildren (descendVisit db fuel) (c :: cs) visited =
        (c.id :: (descendVisit db fuel c.id (c.id :: visited)).1 ++
          (descendChildren (descendVisit db fuel) cs
            (descendVisit db fuel c.id (c.id :: visited)).2).1,
         (descendChildren (descendVisit db fuel) cs
            (descendVisit db fuel c.id (c.id :: visited)).2).2) := by
      rw [descendChildren, if_neg hnotv]
    constructor
    · intro x
      rw [hstep]
      simp only [List.mem_cons, List.mem_append, hsub1 x, hrest1 x]
      constructor
      · intro h
        rcases h with h | h
        · rcases h with rfl | hdesc
          · exact ⟨c, .inl rfl, .inl rfl⟩
          · exact ⟨c, .inl rfl, .inr hdesc⟩
        · obtain ⟨c', hc', hrest⟩ := h
          exact ⟨c', .inr hc', hrest⟩
      · rintro ⟨c', rfl | hc'tl, hrest⟩
        · rcases hrest with rfl | hdesc
          · exact .inl (.inl rfl)
          · exact .inl (.inr hdesc)
        · exact .inr ⟨c', hc'tl, hrest⟩
    · intro x
      rw [hstep]
      simp only [hrest2 x, hsub2 x, List.mem_cons]
      constructor
      · intro h
        rcases h with h | h
        · rcases h with h | hdesc
          · rcases h with rfl | hvis
            · exact .inr ⟨c, .inl rfl, .inl rfl⟩
            · exact .inl hvis
          · exact .inr ⟨c, .inl rfl, .inr hdesc⟩
        · obtain ⟨c', hc', hrest⟩ := h
          exact .inr ⟨c', .inr hc', hrest⟩
      · rintro (hvis | ⟨c', rfl | hc'tl, hrest⟩)
        · exact .inl (.inl (.inr hvis))
        · rcases hrest with rfl | hdesc
          · exact .inl (.inl (.inl rfl))
          · exact .inl (.inr hdesc)
        · exact .inr ⟨c', hc'tl, hrest⟩

/-- Specification of `get_all_descendant_ids` on a forest: with a
compatible visited set and enough fuel the traversal returns exactly the
descendant set. -/
theorem descendVisit_spec {db : DB} {depth : String → Nat}
    (hn : NodupSectionIds db) (hd : HasDepth db depth) :
    ∀ (fuel : Nat) (nid : String) (visited : List String),
      (∀ v, Descendant db nid v → v ∉ visited) →
      (∀ x, Descendant db nid x → depth x < depth nid + fuel) →
      (∀ x, x ∈ (descendVisit db fuel nid visited).1 ↔ Descendant db nid x) ∧
      (∀ x, x ∈ (descendVisit db fuel nid visited).2 ↔ x ∈ visited ∨ Descendant db nid x) := by
  intro fuel
  induction fuel with
  | zero =>
    intro nid visited _ hfuel
    constructor
    · intro x
      simp only [descendVisit, List.not_mem_nil, false_iff]
      intro hx
      have h1 := hx.depth_lt hd
      have h2 := hfuel x hx
      omega
    · intro x
      simp only [descendVisit]
      constructor
      · exact fun h => .inl h
      · rintro (h | hx)
        · exact h
        · exfalso
          have h1 := hx.depth_lt hd
          have h2 := hfuel x hx
          omega
  | succ fuel ih =>
    intro nid visited hcompat hfuel
    have hcs : ∀ c ∈ getChildren db nid, c ∈ db.sections ∧ c.parent_section_id = some nid :=
      fun c hc => mem_getChildren_iff.1 hc
    have hcompat' : ∀ c ∈ getChildren db nid, ∀ v,
        (v = c.id ∨ Descendant db c.id v) → v ∉ visited := by
      intro c hc v hv
      obtain ⟨hcm, hcp⟩ := hcs c hc
      apply hcompat
      rcases hv with rfl | hdesc
      · exact .base hcm hcp
      · exact (Descendant.base hcm hcp).trans hdesc
    have hfuel' : ∀ c ∈ getChildren db nid, ∀ x,
        Descendant db c.id x → depth x < depth c.id + fuel := by
      intro c hc x hx
      obtain ⟨hcm, hcp⟩ := hcs c hc
      have h1 := hfuel x ((Descendant.base hcm hcp).trans hx)
      have h2 := hd _ hcm _ hcp
      omega
    obtain ⟨hr1, hr2⟩ := descendChildren_spec hn hd ih (getChildren db nid) visited hcs
      (getChildren_ids_nodup hn nid) hcompat' hfuel'
    have hiff : ∀ x, (∃ c ∈ getChildren db nid, x = c.id ∨ Descendant db c.id x) ↔
        Descendant db nid x := by
      intro x
      constructor
      · rintro ⟨c, hc, rfl | hdesc⟩
        · exact .base (hcs c hc).1 (hcs c hc).2
        · exact (Descendant.base (hcs c hc).1 (hcs c hc).2).trans hdesc
      · intro hx
        obtain ⟨c, hcmem, hcp, hrest⟩ := hx.first_edge
        refine ⟨c, mem_getChildren_iff.2 ⟨hcmem, hcp⟩, ?_⟩
        rcases hrest with he | hdesc
        · exact .inl he.symm
        · exact .inr hdesc
    have hdef : descendVisit db (fuel + 1) nid visited =
        descendChildren (descendVisit db fuel) (getChildren db nid) visited := rfl
    constructor
    · intro x
      rw [hdef, hr1 x, hiff x]
    · intro x
      rw [hdef, hr2 x, hiff x]

/-- `would_create_cycle` on a forest decides exactly "the candidate parent
is the section itself or one of its descendants". -/
theorem wouldCreateCycle_some_iff {db : DB} {depth : String → Nat}
    (hn : NodupSectionIds db) (hd : HasDepth db depth) (s pid : String) :
    wouldCreateCycle db s (some pid) = true ↔ pid = s ∨ Descendant db s pid := by
  have hdef : wouldCreateCycle db s (some pid) =
      (if (s == pid) = true then true
       else decide (pid ∈ (descendVisit db (db.sections.length + 1) s [s]).1)) := rfl
  rw [hdef]
  by_cases hps : s = pid
  · subst hps
    simp
  · rw [if_neg (by simpa using hps)]
    have hcompat : ∀ v, Descendant db s v → v ∉ [s] := by
      intro v hv hvm
      rw [List.mem_singleton] at hvm
      subst hvm
      exact not_descendant_self hd _ hv
    have hfuel : ∀ x, Descendant db s x → depth x < depth s + (db.sections.length + 1) := by
      intro x hx
      have := descendant_depth_le hn hd hx
      omega
    obtain ⟨h1, _⟩ := descendVisit_spec hn hd (db.sections.length + 1) s [s] hcompat hfuel
    simp only [decide_eq_true_eq]
    rw [h1 pid]
    constructor
    · exact fun h => .inr h
    · rintro (rfl | h)
      · exact absurd rfl hps
      · exact h

/-! ### Claim C2 -/

/-- C2: over an acyclic forest with primary-key ids, `would_create_cycle(S, P)`
returns true exactly when `P` equals `S` or `P` lies in the descendant set
of `S`; it returns false when `P` is absent, hence in particular false for
every section outside the subtree of `S`. -/
theorem claim_C2_would_create_cycle (db : DB) (depth : String → Nat)
    (hn : NodupSectionIds db) (hd : HasDepth db depth) :
    (∀ s : String, wouldCreateCycle db s none = false) ∧
    (∀ s pid : String,
      wouldCreateCycle db s (some pid) = true ↔ pid = s ∨ Descendant db s pid) :=
  ⟨fun _ => rfl, fun s pid => wouldCreateCycle_some_iff hn hd s pid⟩

theorem claim_C2_witness :
    ("Deep" = "Intro" ∨ Descendant dbW "Intro" "Deep") ∧
    wouldCreateCycle dbW "Details" none = false ∧
    wouldCreateCycle dbW "Details" (some "Side") = false := by
  refine ⟨?_, ?_, by decide⟩
  · exact ((claim_C2_would_create_cycle dbW depthW (by decide) (by decide)).2
      "Intro" "Deep").mp (by decide)
  · exact (claim_C2_would_create_cycle dbW depthW (by decide) (by decide)).1 "Details"

/-! ### Claim C1 -/

/-- C1: for an existing section `S` and a candidate parent `P` that is `S`
itself or any of its descendants, `update_parent` fails with a
`ValidationError` naming `new_parent_section_id`, and the session state —
in particular the stored `parent_section_id` and `order_index` of `S` — is
returned untouched. -/
theorem claim_C1_move_into_subtree_rejected (st : SessionState) (depth : String → Nat)
    (hn : NodupSectionIds st.current) (hd : HasDepth st.current depth)
    (hv : ValidStoredSectionIds st.current)
    (S : Sec) (hS : S ∈ st.current.sections)
    (P : String) (hP : P = S.id ∨ Descendant st.current S.id P)
    (oi : Option Int) :
    updateParentService st S.id (some P) oi =
      (.error (.validationErr
        "Cannot move section into its own subtree (would create cycle)"
        "new_parent_section_id"), st) := by
  have hvS : validateSectionId S.id = .ok () := hv S hS
  have hvP : validateSectionId P = .ok () := by
    rcases hP with rfl | hdesc
    · exact hvS
    · obtain ⟨c, hc, rfl⟩ := List.mem_map.1 hdesc.mem_ids
      exact hv c hc
  have hcyc : wouldCreateCycle st.current S.id (some P) = true :=
    (wouldCreateCycle_some_iff hn hd S.id P).mpr hP
  simp only [updateParentService, hvS, hvP, hcyc, if_true]

theorem claim_C1_witness :
    updateParentService stW "Intro" (some "Details") none =
      (.error (.validationErr
        "Cannot move section into its own subtree (would create cycle)"
        "new_parent_section_id"), stW) := by
  have hdesc : "Details" = secIntroW.id ∨ Descendant stW.current "Intro" "Details" :=
    .inr (((@wouldCreateCycle_some_iff dbW depthW
      (by decide) (by decide) "Intro" "Details").mp (by decide)).resolve_left
        (by decide))
  exact claim_C1_move_into_subtree_rejected stW depthW (by decide) (by decide)
    (by decide) secIntroW (by decide) "Details" hdesc none

/-! ### Repository lookup helpers -/

theorem validateSectionId_ok_ne_empty {i : String}
    (h : validateSectionId i = .ok ()) : i ≠ "" := by
  intro he
  subst he
  simp [validateSectionId] at h

theorem findSection_mem {db : DB} {i : String} {t : Sec}
    (h : findSection db i = some t) : t ∈ db.sections ∧ t.id = i :=
  ⟨List.mem_of_find?_eq_some h, by simpa using List.find?_some h⟩

theorem findSection_of_mem {db : DB} (hn : NodupSectionIds db) {t : Sec}
    (ht : t ∈ db.sections) : findSection db t.id = some t := by
  cases h : findSection db t.id with
  | none =>
    exact absurd (by simp : (t.id == t.id) = true)
      (List.find?_eq_none.1 h t ht)
  | some u =>
    obtain ⟨hu, huid⟩ := findSection_mem h
    rw [sec_eq_of_id_eq hn hu ht huid]

/-- Characterization of `max(order_index) + 1 or 0` over a sibling list. -/
theorem nextOrderIndex_prop (l : List Sec) :
    (nextOrderIndex l = 0 ∧ l = []) ∨
    (∃ t ∈ l, nextOrderIndex l = t.order_index + 1 ∧
      ∀ u ∈ l, u.order_index ≤ t.order_index) := by
  unfold nextOrderIndex
  cases hm : (l.map Sec.order_index).max? with
  | none =>
    exact .inl ⟨rfl, List.map_eq_nil_iff.1 (List.max?_eq_none_iff.1 hm)⟩
  | some m =>
    right
    have hmem := List.max?_mem (fun a b => max_choice a b) hm
    have hle : ∀ b ∈ l.map Sec.order_index, b ≤ m :=
      (List.max?_le_iff (fun _ _ _ => max_le_iff) hm).1 le_rfl
    obtain ⟨t, ht, htm⟩ := List.mem_map.1 hmem
    exact ⟨t, ht, by rw [htm], fun u hu => htm ▸ hle _ (List.mem_map_of_mem _ hu)⟩

/-- The sibling scope read by the code coincides with the claim's
`(document_id, parent_section_id)` scope on a well-formed store. -/
theorem siblingScope_mem_iff {db : DB} (hn : NodupSectionIds db) (hpr : ParentsResolve db)
    {document_id : String} {parent : Option String}
    (hparent : ∀ pid, parent = some pid →
      ∃ psec ∈ db.sections, psec.id = pid ∧ psec.document_id = document_id)
    (hpne : ∀ pid, parent = some pid → pid ≠ "") :
    ∀ s, s ∈ siblingScope db document_id parent ↔
      s ∈ db.sections.filter
        (fun s => s.document_id == document_id && s.parent_section_id == parent) := by
  intro s
  cases parent with
  | none =>
    rw [siblingScope, mem_getTopLevelSections_iff, List.mem_filter]
    simp
  | some pid =>
    have hne := hpne pid rfl
    rw [siblingScope]
    rw [if_neg hne, mem_getChildren_iff, List.mem_filter]
    constructor
    · rintro ⟨hs, hp⟩
      refine ⟨hs, ?_⟩
      obtain ⟨psec, hpsec, hpidid, hpdoc⟩ := hparent pid rfl
      obtain ⟨t, ht, htid, htdoc⟩ := hpr s hs pid hp
      have hdoc : s.document_id = document_id := by
        rw [← htdoc, sec_eq_of_id_eq hn ht hpsec (htid.trans hpidid.symm), hpdoc]
      simp [hdoc, hp]
    · rintro ⟨hs, hcond⟩
      simp at hcond
      exact ⟨hs, hcond.2⟩

/-! ### Claim C10 -/

/-- C10: a heading that is non-empty but consists only of whitespace is
rejected by `create_section` and `update_section` with a `ValidationError`
naming `heading`, even when its length lies within the documented 1–500
bounds — the length limits are not the full acceptance condition. -/
theorem claim_C10_whitespace_heading_rejected (heading : String)
    (_hne : heading ≠ "") (hws : pstrip heading = "")
    (_hlo : 1 ≤ heading.length) (_hhi : heading.length ≤ 500) :
    (∀ st document_id body parent oi sid gen,
      createSectionService st document_id heading body parent oi sid gen =
        (.error (.validationErr "Heading is required and cannot be empty" "heading"), st)) ∧
    (∀ st section_id body oi, validateSectionId section_id = .ok () →
      updateSectionService st section_id (some heading) body oi =
        (.error (.validationErr "Heading is required and cannot be empty" "heading"), st)) := by
  have hval : validateHeading heading =
      .error (.validationErr "Heading is required and cannot be empty" "heading") := by
    unfold validateHeading
    rw [if_pos (by simp [hws])]
  constructor
  · intro st did body parent oi sid gen
    simp only [createSectionService, hval]
  · intro st sid body oi hsid
    simp only [updateSectionService, hsid, hval]

/-! ### Claim C3 -/

/-- Evaluation of `create_section` when every validation passes: the new
row is appended (no sibling is renumbered) and committed, with the
explicit order index stored verbatim or the computed one otherwise. -/
theorem createSection_eval (st : SessionState) (hn : NodupSectionIds st.current)
    (document_id heading body : String) (parent : Option String)
    (oi_arg : Option Int) (sid gen : String)
    (hh : validateHeading heading = .ok ())
    (hdid : validateSectionId document_id = .ok ())
    (hsid : validateSectionId sid = .ok ())
    (hfresh : findSection st.current sid = none)
    (hparent : ∀ pid, parent = some pid → validateSectionId pid = .ok () ∧
      ∃ psec ∈ st.current.sections, psec.id = pid ∧ psec.document_id = document_id) :
    createSectionService st document_id heading body parent oi_arg (some sid) gen =
      (.ok ⟨sid, document_id, parent, heading, body,
         match oi_arg with
         | some i => i
         | none => nextOrderIndex (siblingScope st.current document_id parent)⟩,
       commitS { st with current := (addSection st.current
         (⟨sid, document_id, parent, heading, body,
           match oi_arg with
           | some i => i
           | none => nextOrderIndex (siblingScope st.current document_id parent)⟩ : Sec)) }) := by
  cases parent with
  | none =>
    simp only [createSectionService, hh, hdid, hsid, hfresh, validateBody]
  | some pid =>
    obtain ⟨hvp, psec, hpsec, hpidid, hpdoc⟩ := hparent pid rfl
    have hfind : findSection st.current pid = some psec := by
      have := findSection_of_mem hn hpsec
      rwa [hpidid] at this
    simp only [createSectionService, hh, hdid, hsid, hfresh, hvp, hfind, validateBody]
    rw [if_neg (fun hne => hne hpdoc)]

/-- C3: with no explicit `order_index`, `create_section` persists
`max(order_index over the (document, parent) sibling scope) + 1`, or `0`
on an empty scope; an explicit `order_index` is stored verbatim.  In both
cases the new row is appended and no existing sibling is renumbered. -/
theorem claim_C3_create_section_order_index (st : SessionState)
    (hn : NodupSectionIds st.current) (hpr : ParentsResolve st.current)
    (document_id heading body : String) (parent : Option String) (sid gen : String)
    (hh : validateHeading heading = .ok ())
    (hdid : validateSectionId document_id = .ok ())
    (hsid : validateSectionId sid = .ok ())
    (hfresh : findSection st.current sid = none)
    (hparent : ∀ pid, parent = some pid → validateSectionId pid = .ok () ∧
      ∃ psec ∈ st.current.sections, psec.id = pid ∧ psec.document_id = document_id) :
    (∀ oi : Int,
      createSectionService st document_id heading body parent (some oi) (some sid) gen =
        (.ok ⟨sid, document_id, parent, heading, body, oi⟩,
         commitS { st with current := (addSection st.current
           (⟨sid, document_id, parent, heading, body, oi⟩ : Sec)) })) ∧
    (createSectionService st document_id heading body parent none (some sid) gen =
        (.ok ⟨sid, document_id, parent, heading, body,
           nextOrderIndex (siblingScope st.current document_id parent)⟩,
         commitS { st with current := (addSection st.current
           (⟨sid, document_id, parent, heading, body,
             nextOrderIndex (siblingScope st.current document_id parent)⟩ : Sec)) })) ∧
    ((st.current.sections.filter
        (fun s => s.document_id == document_id && s.parent_section_id == parent)) = [] →
      nextOrderIndex (siblingScope st.current document_id parent) = 0) ∧
    (∀ t ∈ st.current.sections.filter
        (fun s => s.document_id == document_id && s.parent_section_id == parent),
      t.order_index < nextOrderIndex (siblingScope st.current document_id parent)) ∧
    ((st.current.sections.filter
        (fun s => s.document_id == document_id && s.parent_section_id == parent)) ≠ [] →
      ∃ t ∈ st.current.sections.filter
          (fun s => s.document_id == document_id && s.parent_section_id == parent),
        nextOrderIndex (siblingScope st.current document_id parent) = t.order_index + 1) := by
  have hmemiff := siblingScope_mem_iff hn hpr
    (fun pid hp => (hparent pid hp).2)
    (fun pid hp => validateSectionId_ok_ne_empty (hparent pid hp).1)
  refine ⟨fun oi => createSection_eval st hn document_id heading body parent (some oi)
      sid gen hh hdid hsid hfresh hparent,
    createSection_eval st hn document_id heading body parent none
      sid gen hh hdid hsid hfresh hparent, ?_, ?_, ?_⟩
  all_goals
    rcases nextOrderIndex_prop (siblingScope st.current document_id parent) with
      ⟨h0, hnil⟩ | ⟨t, ht, heq, hub⟩
  · exact fun _ => h0
  · intro hscope
    exact absurd ((hmemiff t).1 ht) (by rw [hscope]; exact List.not_mem_nil t)
  · intro u hu
    exact absurd ((hmemiff u).2 hu) (by rw [hnil]; exact List.not_mem_nil u)
  · intro u hu
    have := hub u ((hmemiff u).2 hu)
    omega
  · intro hne
    exact absurd (List.eq_nil_iff_forall_not_mem.2
      (fun a ha => by
        have := (hmemiff a).2 ha
        rw [hnil] at this
        exact List.not_mem_nil a this)) hne
  · exact fun _ => ⟨t, (hmemiff t).1 ht, heq⟩

theorem claim_C3_witness :
    createSectionService stR "D1" "New" "" none none (some "sd") "g" =
      (.ok ⟨"sd", "D1", none, "New", "", 6⟩,
       commitS { stR with current := (addSection stR.current
         (⟨"sd", "D1", none, "New", "", 6⟩ : Sec)) }) :=
  ((claim_C3_create_section_order_index stR (by decide) (by decide) "D1" "New" ""
      none "sd" "g" (by decide) (by decide) (by decide) (by decide)
      (fun pid h => nomatch h)).2.1).trans (by decide)

/-! ### Claim C6 -/

/-- The cascade closure only grows. -/
theorem sectionCascadeClosure_sub (db : DB) :
    ∀ (fuel : Nat) (acc : List String), acc ⊆ sectionCascadeClosure db fuel acc := by
  intro fuel
  induction fuel with
  | zero => exact fun acc => List.Subset.refl acc
  | succ fuel ih =>
    intro acc
    exact (List.subset_append_left _ _).trans (ih (cascadeStep db acc))

/-- C6: after `delete_document` on an existing document commits, no
section of the document remains, no link carrying the document id remains,
no link attached to any of the document's former sections remains, and the
document row itself is gone. -/
theorem claim_C6_delete_document_cascade (st : SessionState) (document_id : String)
    (hvd : validateDocumentId document_id = .ok ())
    (hdoc : ∃ d ∈ st.current.documents, d.id = document_id) :
    ∃ st', deleteDocumentService st document_id = (.ok true, st') ∧
      st'.committed = st'.current ∧
      (∀ s ∈ st'.current.sections, s.document_id ≠ document_id) ∧
      (∀ l ∈ st'.current.links, l.document_id ≠ some document_id) ∧
      (∀ l ∈ st'.current.links, ∀ sid, l.section_id = some sid →
        ∀ s ∈ st.current.sections, s.document_id = document_id → s.id ≠ sid) ∧
      (∀ d ∈ st'.current.documents, d.id ≠ document_id) := by
  obtain ⟨d, hd, hdid⟩ := hdoc
  have hfind : ∃ d', findDocument st.current document_id = some d' := by
    cases h : findDocument st.current document_id with
    | none =>
      exact absurd (by simp [hdid] : (d.id == document_id) = true)
        (List.find?_eq_none.1 h d hd)
    | some d' => exact ⟨d', rfl⟩
  obtain ⟨d', hfind⟩ := hfind
  have hseed : ∀ s ∈ st.current.sections, s.document_id = document_id →
      s.id ∈ sectionCascadeClosure st.current st.current.sections.length
        ((st.current.sections.filter
          (fun s => s.document_id == document_id)).map Sec.id) := by
    intro s hs hdoc
    apply sectionCascadeClosure_sub
    exact List.mem_map_of_mem _ (List.mem_filter.2 ⟨hs, by simp [hdoc]⟩)
  refine ⟨commitS { st with current := deleteDocumentData st.current document_id },
    by simp only [deleteDocumentService, hvd, hfind], rfl, ?_, ?_, ?_, ?_⟩
  · intro s hs
    have hmem := List.mem_filter.1 hs
    intro hdoc
    exact absurd (hseed s hmem.1 hdoc) (by simpa using hmem.2)
  · intro l hl
    have hmem := List.mem_filter.1 hl
    have := of_decide_eq_true hmem.2
    intro hldoc
    exact this (.inl hldoc)
  · intro l hl sid hsid s hs hdoc hid
    have hmem := List.mem_filter.1 hl
    have := of_decide_eq_true hmem.2
    exact this (.inr ⟨sid, hsid, hid ▸ hseed s hs hdoc⟩)
  · intro dd hdd
    exact of_decide_eq_true (List.mem_filter.1 hdd).2

theorem claim_C6_witness :
    ∃ st', deleteDocumentService stW "D1" = (.ok true, st') ∧
      st'.committed = st'.current ∧
      (∀ s ∈ st'.current.sections, s.document_id ≠ "D1") ∧
      (∀ l ∈ st'.current.links, l.document_id ≠ some "D1") ∧
      (∀ l ∈ st'.current.links, ∀ sid, l.section_id = some sid →
        ∀ s ∈ stW.current.sections, s.document_id = "D1" → s.id ≠ sid) ∧
      (∀ d ∈ st'.current.documents, d.id ≠ "D1") :=
  claim_C6_delete_document_cascade stW "D1" (by decide)
    ⟨{ id := "D1", title := "Doc one" }, by decide, rfl⟩

/-! ### Claim C7 -/

theorem sectionHasDuplicateLink_iff {db : DB} {sid t g : String} :
    sectionHasDuplicateLink db sid t g = true ↔
      ∃ l ∈ db.links, l.section_id = some sid ∧ l.link_type = t ∧ l.link_target = g := by
  unfold sectionHasDuplicateLink getLinksBySection
  rw [List.any_eq_true]
  constructor
  · rintro ⟨l, hl, hcond⟩
    have hm := List.mem_filter.1 hl
    simp only [Bool.and_eq_true, beq_iff_eq] at hcond
    exact ⟨l, hm.1, by simpa using hm.2, hcond.1, hcond.2⟩
  · rintro ⟨l, hl, hsid, ht, hg⟩
    exact ⟨l, List.mem_filter.2 ⟨hl, by simp [hsid]⟩, by simp [ht, hg]⟩

theorem documentHasDuplicateLink_iff {db : DB} {did t g : String} :
    documentHasDuplicateLink db did t g = true ↔
      ∃ l ∈ db.links, l.document_id = some did ∧ l.link_type = t ∧ l.link_target = g := by
  unfold documentHasDuplicateLink getLinksByDocument
  rw [List.any_eq_true]
  constructor
  · rintro ⟨l, hl, hcond⟩
    have hm := List.mem_filter.1 hl
    simp only [Bool.and_eq_true, beq_iff_eq] at hcond
    exact ⟨l, hm.1, by simpa using hm.2, hcond.1, hcond.2⟩
  · rintro ⟨l, hl, hsid, ht, hg⟩
    exact ⟨l, List.mem_filter.2 ⟨hl, by simp [hsid]⟩, by simp [ht, hg]⟩

theorem validateLinkId_error_shape {i : String} {e : Err}
    (h : validateLinkId i = .error e) : ∃ m f, e = .validationErr m f := by
  unfold validateLinkId at h
  split at h
  · exact ⟨_, _, (by injection h with h1; exact h1.symm)⟩
  · split at h
    · exact ⟨_, _, (by injection h with h1; exact h1.symm)⟩
    · exact nomatch h

/-- C7 as stated is false: `link_document`'s duplicate scan covers every
link carrying the document id — section-owned links included — so a link
attached to a *different* owner (a section of the document) blocks a
document-level create.  In `dbL` the only link with the pair is owned by
section `X`, yet `link_document("D1", …)` raises the pair `DuplicateError`. -/
theorem claim_C7_counterexample :
    (∀ l ∈ stL.current.links,
      ¬ (l.section_id = none ∧ l.link_type = "todo-rama" ∧
         l.link_target = "todo-rama://task/123")) ∧
    (linkDocumentService stL "D1" "todo-rama" "todo-rama://task/123"
        (some "LN") "g").1 =
      .error (.duplicate "Link" "document_id+link_type+link_target"
        ("D1" ++ "+" ++ "todo-rama" ++ "+" ++ "todo-rama://task/123")) := by
  constructor
  · decide
  · decide

/-- C7 amended: `link_section` raises the pair `DuplicateError` exactly
when a link attached to the same section carries the identical
`(link_type, link_target)` pair — other owners never cause rejection.
`link_document`, however, raises it exactly when *any* stored link
carrying that `document_id` — document-owned or owned by a section of the
document — has the identical pair. -/
theorem claim_C7_duplicate_link_scope (st : SessionState) (link_type link_target : String)
    (ht : validateLinkType link_type = .ok ())
    (htt : validateLinkTarget link_target = .ok ())
    (htf : validateLinkTargetFormat link_type link_target = .ok ()) :
    (∀ section_id, validateLinkId section_id = .ok () →
      ∀ sec, findSection st.current section_id = some sec →
      ∀ link_id gen,
      ((linkSectionService st section_id link_type link_target link_id gen).1 =
        .error (.duplicate "Link" "section_id+link_type+link_target"
          (section_id ++ "+" ++ link_type ++ "+" ++ link_target)) ↔
        ∃ l ∈ st.current.links, l.section_id = some section_id ∧
          l.link_type = link_type ∧ l.link_target = link_target)) ∧
    (∀ document_id, validateLinkId document_id = .ok () →
      ∀ doc, findDocument st.current document_id = some doc →
      ∀ link_id gen,
      ((linkDocumentService st document_id link_type link_target link_id gen).1 =
        .error (.duplicate "Link" "document_id+link_type+link_target"
          (document_id ++ "+" ++ link_type ++ "+" ++ link_target)) ↔
        ∃ l ∈ st.current.links, l.document_id = some document_id ∧
          l.link_type = link_type ∧ l.link_target = link_target)) := by
  constructor
  · intro section_id hsv sec hfind link_id gen
    by_cases hdup : sectionHasDuplicateLink st.current section_id link_type link_target = true
    · simp only [linkSectionService, hsv, hfind, ht, htt, htf, hdup, if_true]
      exact iff_of_true trivial (sectionHasDuplicateLink_iff.1 hdup)
    · have hdupf : sectionHasDuplicateLink st.current section_id link_type link_target
          = false := by simpa using hdup
      have hrhs : ¬ ∃ l ∈ st.current.links, l.section_id = some section_id ∧
          l.link_type = link_type ∧ l.link_target = link_target :=
        fun hex => hdup (sectionHasDuplicateLink_iff.2 hex)
      rcases link_id with _ | lid
      · cases hfl : findLink st.current gen with
        | some l =>
          simp only [linkSectionService, hsv, hfind, ht, htt, htf, hdupf,
            Bool.false_eq_true, if_false, hfl]
          exact iff_of_false (by simp) hrhs
        | none =>
          simp only [linkSectionService, hsv, hfind, ht, htt, htf, hdupf,
            Bool.false_eq_true, if_false, hfl]
          exact iff_of_false (by simp) hrhs
      · cases hvl : validateLinkId lid with
        | error e =>
          obtain ⟨m, f, rfl⟩ := validateLinkId_error_shape hvl
          simp only [linkSectionService, hsv, hfind, ht, htt, htf, hdupf,
            Bool.false_eq_true, if_false, hvl]
          exact iff_of_false (by simp) hrhs
        | ok u =>
          cases u
          cases hfl : findLink st.current lid with
          | some l =>
            simp only [linkSectionService, hsv, hfind, ht, htt, htf, hdupf,
              Bool.false_eq_true, if_false, hvl, hfl]
            exact iff_of_false (by simp) hrhs
          | none =>
            simp only [linkSectionService, hsv, hfind, ht, htt, htf, hdupf,
              Bool.false_eq_true, if_false, hvl, hfl]
            exact iff_of_false (by simp) hrhs
  · intro document_id hdv doc hfind link_id gen
    by_cases hdup : documentHasDuplicateLink st.current document_id link_type link_target = true
    · simp only [linkDocumentService, hdv, hfind, ht, htt, htf, hdup, if_true]
      exact iff_of_true trivial (documentHasDuplicateLink_iff.1 hdup)
    · have hdupf : documentHasDuplicateLink st.current document_id link_type link_target
          = false := by simpa using hdup
      have hrhs : ¬ ∃ l ∈ st.current.links, l.document_id = some document_id ∧
          l.link_type = link_type ∧ l.link_target = link_target :=
        fun hex => hdup (documentHasDuplicateLink_iff.2 hex)
      rcases link_id with _ | lid
      · cases hfl : findLink st.current gen with
        | some l =>
          simp only [linkDocumentService, hdv, hfind, ht, htt, htf, hdupf,
            Bool.false_eq_true, if_false, hfl]
          exact iff_of_false (by simp) hrhs
        | none =>
          simp only [linkDocumentService, hdv, hfind, ht, htt, htf, hdupf,
            Bool.false_eq_true, if_false, hfl]
          exact iff_of_false (by simp) hrhs
      · cases hvl : validateLinkId lid with
        | error e =>
          obtain ⟨m, f, rfl⟩ := validateLinkId_error_shape hvl
          simp only [linkDocumentService, hdv, hfind, ht, htt, htf, hdupf,
            Bool.false_eq_true, if_false, hvl]
          exact iff_of_false (by simp) hrhs
        | ok u =>
          cases u
          cases hfl : findLink st.current lid with
          | some l =>
            simp only [linkDocumentService, hdv, hfind, ht, htt, htf, hdupf,
              Bool.false_eq_true, if_false, hvl, hfl]
            exact iff_of_false (by simp) hrhs
          | none =>
            simp only [linkDocumentService, hdv, hfind, ht, htt, htf, hdupf,
              Bool.false_eq_true, if_false, hvl, hfl]
            exact iff_of_false (by simp) hrhs

theorem claim_C7_witness :
    ((linkSectionService stL "X" "todo-rama" "todo-rama://task/123" (some "LN") "g").1 =
      .error (.duplicate "Link" "section_id+link_type+link_target"
        ("X" ++ "+" ++ "todo-rama" ++ "+" ++ "todo-rama://task/123"))) ∧
    ¬ ((linkSectionService stL "Y" "todo-rama" "todo-rama://task/123" (some "LN") "g").1 =
      .error (.duplicate "Link" "section_id+link_type+link_target"
        ("Y" ++ "+" ++ "todo-rama" ++ "+" ++ "todo-rama://task/123"))) := by
  have h := claim_C7_duplicate_link_scope stL "todo-rama" "todo-rama://task/123"
    (by decide) (by decide) (by decide)
  constructor
  · exact (h.1 "X" (by decide)
      (⟨"X", "D1", none, "X", "", 0⟩ : Sec) (by decide) (some "LN") "g").mpr (by decide)
  · intro heq
    exact absurd ((h.1 "Y" (by decide)
      (⟨"Y", "D1", none, "Y", "", 1⟩ : Sec) (by decide) (some "LN") "g").mp heq) (by decide)

/-! ### Claim C8 -/

/-- A counting lemma: a predicate implied by another, failed by some
witness of the other, counts strictly fewer elements. -/
theorem countP_lt_of_witness {α : Type} (p q : α → Bool) (l : List α)
    (hpq : ∀ a ∈ l, p a = true → q a = true)
    (t : α) (ht : t ∈ l) (hq : q t = true) (hp : p t = false) :
    l.countP p < l.countP q := by
  induction l with
  | nil => exact absurd ht (List.not_mem_nil t)
  | cons a l ih =>
    rw [List.countP_cons, List.countP_cons]
    rcases List.mem_cons.1 ht with rfl | htl
    · have hmono : l.countP p ≤ l.countP q :=
        List.countP_mono_left (fun a ha => hpq a (List.mem_cons_of_mem _ ha))
      rw [hp, hq]
      simpa using Nat.lt_succ_of_le hmono
    · have hstrict := ih (fun a ha => hpq a (List.mem_cons_of_mem _ ha)) htl
      have hif : (if p a then 1 else 0) ≤ (if q a then 1 else 0) := by
        by_cases hpa : p a = true
        · rw [if_pos hpa, if_pos (hpq a (List.mem_cons_self a l) hpa)]
        · simp [hpa]
      omega

/-- The upward walk of `get_path_to_root`, on a well-formed store and with
fuel above the number of strictly-shallower sections, prepends exactly the
ancestor chain of the current section. -/
theorem pathToRootGo_spec {db : DB} {depth : String → Nat}
    (hn : NodupSectionIds db) (hd : HasDepth db depth)
    (hpr : ParentsResolve db) (hv : ValidStoredSectionIds db) :
    ∀ (fuel : Nat) (c : Sec), c ∈ db.sections →
      db.sections.countP (fun t => decide (depth t.id < depth c.id)) + 1 ≤ fuel →
      ∀ path, ∃ anc,
        pathToRootGo db fuel (some c) path = anc ++ c :: path ∧
        List.Chain' (fun a b => b.parent_section_id = some a.id) (anc ++ [c]) ∧
        (∃ r, (anc ++ [c]).head? = some r ∧ r.parent_section_id = none) ∧
        (c.parent_section_id = none → anc = []) := by
  intro fuel
  induction fuel with
  | zero =>
    intro c _ hfuel
    omega
  | succ fuel ih =>
    intro c hc hfuel path
    cases hp : c.parent_section_id with
    | none =>
      refine ⟨[], ?_, ?_, ⟨c, rfl, hp⟩, fun _ => rfl⟩
      · simp only [pathToRootGo, hp, List.nil_append]
      · simp
    | some p =>
      obtain ⟨t, htmem, htid, _⟩ := hpr c hc p hp
      have hpne : p ≠ "" := htid ▸ validateSectionId_ok_ne_empty (hv t htmem)
      have hfind : findSection db p = some t := htid ▸ findSection_of_mem hn htmem
      have hdepth : depth c.id = depth t.id + 1 := by
        rw [htid]
        exact hd c hc p hp
      have hmeas : db.sections.countP (fun u => decide (depth u.id < depth t.id)) + 1 ≤ fuel := by
        have hlt := countP_lt_of_witness
          (fun u => decide (depth u.id < depth t.id))
          (fun u => decide (depth u.id < depth c.id)) db.sections
          (fun a _ hpa => by
            simp only [decide_eq_true_eq] at hpa ⊢
            omega)
          t htmem (by simp [hdepth]) (by simp)
        omega
      obtain ⟨anc, hgo, hchain, hhead, _⟩ := ih t htmem hmeas (c :: path)
      refine ⟨anc ++ [t], ?_, ?_, ?_, fun hnone => nomatch hnone⟩
      · simp only [pathToRootGo, hp, if_neg hpne, hfind]
        rw [hgo]
        simp
      · refine List.Chain'.append hchain (by simp) ?_
        intro x hx y hy
        simp only [Option.mem_def] at hx hy
        have h1 : (anc ++ [t]).getLast? = some t := by simp
        rw [h1] at hx
        injection hx with hx
        have h2 : ([c] : List Sec).head? = some c := rfl
        rw [h2] at hy
        injection hy with hy
        subst hx
        subst hy
        rw [htid]
        exact hp
      · obtain ⟨r, hr, hrtop⟩ := hhead
        refine ⟨r, ?_, hrtop⟩
        rw [List.head?_append, hr]
        rfl

/-- C8: for an existing section the path to root is the ancestor chain
followed by the section itself — non-empty, its first element top-level,
adjacent elements in parent→child linkage, and a single element exactly
for a top-level section; a missing id yields the empty path. -/
theorem claim_C8_path_to_root (db : DB) (depth : String → Nat)
    (hn : NodupSectionIds db) (hd : HasDepth db depth)
    (hpr : ParentsResolve db) (hv : ValidStoredSectionIds db) :
    (∀ sid, findSection db sid = none → getPathToRoot db sid = []) ∧
    (∀ S ∈ db.sections, ∃ anc,
      getPathToRoot db S.id = anc ++ [S] ∧
      List.Chain' (fun a b => b.parent_section_id = some a.id) (anc ++ [S]) ∧
      (∃ r, (anc ++ [S]).head? = some r ∧ r.parent_section_id = none) ∧
      (S.parent_section_id = none → anc = [])) := by
  constructor
  · intro sid hnone
    rw [getPathToRoot, hnone]
    rfl
  · intro S hS
    have hfind : findSection db S.id = some S := findSection_of_mem hn hS
    have hfuel : db.sections.countP (fun t => decide (depth t.id < depth S.id)) + 1 ≤
        db.sections.length + 1 := by
      have hcl : db.sections.countP (fun t => decide (depth t.id < depth S.id)) ≤
          db.sections.length := List.countP_le_length _
      omega
    obtain ⟨anc, hgo, hchain, hhead, htop⟩ :=
      pathToRootGo_spec hn hd hpr hv (db.sections.length + 1) S hS hfuel []
    exact ⟨anc, by rw [getPathToRoot, hfind]; exact hgo, hchain, hhead, htop⟩

theorem claim_C8_witness :
    (getPathToRoot dbW "missing" = []) ∧
    (∃ anc, getPathToRoot dbW "Deep" = anc ++
      [(⟨"Deep", "D1", some "Details", "Deep", "", 0⟩ : Sec)] ∧
      List.Chain' (fun a b => b.parent_section_id = some a.id)
        (anc ++ [(⟨"Deep", "D1", some "Details", "Deep", "", 0⟩ : Sec)]) ∧
      (∃ r, (anc ++ [(⟨"Deep", "D1", some "Details", "Deep", "", 0⟩ : Sec)]).head? = some r ∧
        r.parent_section_id = none) ∧
      ((⟨"Deep", "D1", some "Details", "Deep", "", 0⟩ : Sec).parent_section_id = none →
        anc = [])) := by
  have h := claim_C8_path_to_root dbW depthW (by decide) (by decide) (by decide) (by decide)
  exact ⟨h.1 "missing" (by decide), h.2 ⟨"Deep", "D1", some "Details", "Deep", "", 0⟩ (by decide)⟩

/-! ### Claim C9 -/

theorem mem_childRows_iff {db : DB} {pid : String} {c : Sec} :
    c ∈ childRows db pid ↔ c ∈ db.sections ∧ c.parent_section_id = some pid := by
  unfold childRows
  rw [List.mem_filter]
  simp

/-- Flattening the subtree materialized below a stored section collects
the section itself and exactly its stored descendants, given fuel above
the number of strictly-deeper sections. -/
theorem flatten_buildSubtree_mem {db : DB} {depth : String → Nat}
    (hn : NodupSectionIds db) (hd : HasDepth db depth) :
    ∀ (fuel : Nat) (y : Sec), y ∈ db.sections →
      db.sections.countP (fun u => decide (depth y.id < depth u.id)) + 1 ≤ fuel →
      ∀ x, x ∈ flattenTree fuel (buildSubtree db fuel y) ↔
        (x = y ∨ (x ∈ db.sections ∧ Descendant db y.id x.id)) := by
  intro fuel
  induction fuel with
  | zero =>
    intro y _ hfuel
    omega
  | succ fuel ih =>
    intro y hy hfuel x
    have hmeas : ∀ c ∈ childRows db y.id,
        db.sections.countP (fun u => decide (depth c.id < depth u.id)) + 1 ≤ fuel := by
      intro c hcr
      obtain ⟨hcm, hcp⟩ := mem_childRows_iff.1 hcr
      have hdc : depth c.id = depth y.id + 1 := hd c hcm _ hcp
      have hlt := countP_lt_of_witness
        (fun u => decide (depth c.id < depth u.id))
        (fun u => decide (depth y.id < depth u.id)) db.sections
        (fun a _ hpa => by
          simp only [decide_eq_true_eq] at hpa ⊢
          omega)
        c hcm (by simp [hdc]) (by simp)
      omega
    simp only [buildSubtree, flattenTree, List.mem_cons, List.mem_flatMap, List.mem_map]
    constructor
    · rintro (rfl | ⟨tt, ⟨c, hcr, rfl⟩, hx⟩)
      · exact .inl rfl
      · obtain ⟨hcm, hcp⟩ := mem_childRows_iff.1 hcr
        rcases (ih c hcm (hmeas c hcr) x).1 hx with rfl | ⟨hxm, hdesc⟩
        · exact .inr ⟨hcm, .base hcm hcp⟩
        · exact .inr ⟨hxm, (Descendant.base hcm hcp).trans hdesc⟩
    · rintro (rfl | ⟨hxm, hdesc⟩)
      · exact .inl rfl
      · right
        obtain ⟨c, hcm, hcp, hrest⟩ := hdesc.first_edge
        have hcr : c ∈ childRows db y.id := mem_childRows_iff.2 ⟨hcm, hcp⟩
        refine ⟨buildSubtree db fuel c, ⟨c, hcr, rfl⟩, ?_⟩
        rw [ih c hcm (hmeas c hcr) x]
        rcases hrest with hid | hdesc'
        · exact .inl (sec_eq_of_id_eq hn hxm hcm hid.symm)
        · exact .inr ⟨hxm, hdesc'⟩

/-- Along the stored parent edges the document id is constant. -/
theorem descendant_same_document {db : DB}
    (hn : NodupSectionIds db) (hpr : ParentsResolve db) {a xid : String}
    (h : Descendant db a xid) :
    ∀ xsec ∈ db.sections, xsec.id = xid → ∀ asec ∈ db.sections, asec.id = a →
      xsec.document_id = asec.document_id := by
  induction h with
  | @base c hc hp =>
    intro xsec hxm hxid asec ham haid
    obtain ⟨t, htm, htid, htdoc⟩ := hpr c hc _ hp
    have hxc : xsec = c := sec_eq_of_id_eq hn hxm hc hxid
    have hta : t = asec := sec_eq_of_id_eq hn htm ham (htid.trans haid.symm)
    rw [hxc, ← htdoc, hta]
  | @step p c hdp hc hp ih =>
    intro xsec hxm hxid asec ham haid
    obtain ⟨t, htm, htid, htdoc⟩ := hpr c hc _ hp
    have hxc : xsec = c := sec_eq_of_id_eq hn hxm hc hxid
    rw [hxc, ← htdoc]
    exact ih t htm htid asec ham haid

/-- Every stored section has a stored top-level ancestor (or is one) in
the same document. -/
theorem exists_top_ancestor {db : DB} {depth : String → Nat}
    (_hn : NodupSectionIds db) (hd : HasDepth db depth) (hpr : ParentsResolve db) :
    ∀ y ∈ db.sections, ∃ r ∈ db.sections, r.parent_section_id = none ∧
      r.document_id = y.document_id ∧ (r = y ∨ Descendant db r.id y.id) := by
  intro y hy
  generalize hk : db.sections.countP (fun u => decide (depth u.id < depth y.id)) = k
  induction k using Nat.strong_induction_on generalizing y with
  | _ k ihk =>
    cases hp : y.parent_section_id with
    | none => exact ⟨y, hy, hp, rfl, .inl rfl⟩
    | some p =>
      obtain ⟨t, htm, htid, htdoc⟩ := hpr y hy p hp
      have hdt : depth y.id = depth t.id + 1 := by
        rw [htid]
        exact hd y hy p hp
      have hlt : db.sections.countP (fun u => decide (depth u.id < depth t.id)) < k := by
        rw [← hk]
        exact countP_lt_of_witness
          (fun u => decide (depth u.id < depth t.id))
          (fun u => decide (depth u.id < depth y.id)) db.sections
          (fun a _ hpa => by
            simp only [decide_eq_true_eq] at hpa ⊢
            omega)
          t htm (by simp [hdt]) (by simp)
      obtain ⟨r, hrm, hrtop, hrdoc, hrlink⟩ := ihk _ hlt t htm rfl
      refine ⟨r, hrm, hrtop, by rw [hrdoc, htdoc], .inr ?_⟩
      rcases hrlink with rfl | hdesc
      · exact .base hy (htid ▸ hp)
      · exact .step hdesc hy (htid ▸ hp)

/-- C9: for an acyclic, well-formed store, flattening the materialized
tree of a document yields exactly the sections of the document — the tree
and flat projections contain the same nodes. -/
theorem claim_C9_tree_flat_same_nodes (db : DB) (depth : String → Nat)
    (hn : NodupSectionIds db) (hd : HasDepth db depth) (hpr : ParentsResolve db)
    (did : String) :
    ∀ x, (∃ t ∈ getSectionTreeByDocument db did,
            x ∈ flattenTree db.sections.length t) ↔
         x ∈ getFlatSections db did := by
  have hfuelOf : ∀ y ∈ db.sections,
      db.sections.countP (fun u => decide (depth y.id < depth u.id)) + 1 ≤
        db.sections.length := by
    intro y hy
    have := countP_lt_of_witness
      (fun u => decide (depth y.id < depth u.id)) (fun _ => true) db.sections
      (fun _ _ _ => rfl) y hy rfl (by simp)
    rw [List.countP_true] at this
    omega
  intro x
  constructor
  · rintro ⟨t, ht, hx⟩
    obtain ⟨r, hr, rfl⟩ := List.mem_map.1 ht
    obtain ⟨hrm, hrdoc, hrtop⟩ := mem_getTopLevelSections_iff.1 hr
    rw [flatten_buildSubtree_mem hn hd db.sections.length r hrm (hfuelOf r hrm) x] at hx
    rcases hx with rfl | ⟨hxm, hdesc⟩
    · exact mem_getFlatSections_iff.2 ⟨hrm, hrdoc⟩
    · refine mem_getFlatSections_iff.2 ⟨hxm, ?_⟩
      rw [descendant_same_document hn hpr hdesc x hxm rfl r hrm rfl, hrdoc]
  · intro hx
    obtain ⟨hxm, hxdoc⟩ := mem_getFlatSections_iff.1 hx
    obtain ⟨r, hrm, hrtop, hrdoc, hrlink⟩ := exists_top_ancestor hn hd hpr x hxm
    have hrtl : r ∈ getTopLevelSections db did :=
      mem_getTopLevelSections_iff.2 ⟨hrm, by rw [hrdoc, hxdoc], hrtop⟩
    refine ⟨buildSubtree db db.sections.length r, List.mem_map_of_mem _ hrtl, ?_⟩
    rw [flatten_buildSubtree_mem hn hd db.sections.length r hrm (hfuelOf r hrm) x]
    rcases hrlink with rfl | hdesc
    · exact .inl rfl
    · exact .inr ⟨hxm, hdesc⟩

theorem claim_C9_witness :
    (∃ t ∈ getSectionTreeByDocument dbW "D1",
      (⟨"Deep", "D1", some "Details", "Deep", "", 0⟩ : Sec) ∈
        flattenTree dbW.sections.length t) ∧
    ¬ (∃ t ∈ getSectionTreeByDocument dbW "D1",
      (⟨"Ghost", "D1", none, "G", "", 0⟩ : Sec) ∈
        flattenTree dbW.sections.length t) := by
  have h := claim_C9_tree_flat_same_nodes dbW depthW (by decide) (by decide) (by decide) "D1"
  constructor
  · exact (h ⟨"Deep", "D1", some "Details", "Deep", "", 0⟩).mpr (by decide)
  · intro hex
    exact absurd ((h ⟨"Ghost", "D1", none, "G", "", 0⟩).mp hex) (by decide)

theorem claim_C10_witness :
    createSectionService stE "D1" " " "" none none (some "s1") "g" =
      (.error (.validationErr "Heading is required and cannot be empty" "heading"), stE) ∧
    updateSectionService stW "Intro" (some " ") none none =
      (.error (.validationErr "Heading is required and cannot be empty" "heading"), stW) :=
  ⟨(claim_C10_whitespace_heading_rejected " " (by decide) (by decide) (by decide)
      (by decide)).1 stE "D1" "" none none (some "s1") "g",
   (claim_C10_whitespace_heading_rejected " " (by decide) (by decide) (by decide)
      (by decide)).2 stW "Intro" none none (by decide)⟩

/-! ### Claim C5 -/

theorem posOf_eq_none {sids : List String} {sid : String} :
    posOf sids sid = none ↔ sid ∉ sids := by
  induction sids with
  | nil => simp [posOf]
  | cons x xs ih =>
    simp only [posOf, List.mem_cons]
    by_cases hx : x = sid
    · simp [hx]
    · rw [if_neg hx, Option.map_eq_none', ih]
      constructor
      · rintro h (rfl | hmem)
        · exact hx rfl
        · exact h hmem
      · exact fun h hmem => h (.inr hmem)

theorem posOf_get {sids : List String} (h : sids.Nodup) :
    ∀ (j : Nat) (hj : j < sids.length), posOf sids (sids.get ⟨j, hj⟩) = some j := by
  induction sids with
  | nil => intro j hj; exact absurd hj (by simp)
  | cons x xs ih =>
    intro j hj
    cases j with
    | zero => simp [posOf]
    | succ j =>
      have hj' : j < xs.length := by simpa using hj
      have hxmem : xs.get ⟨j, hj'⟩ ∈ xs := List.get_mem xs j hj'
      have hne : x ≠ xs.get ⟨j, hj'⟩ := by
        intro he
        exact (List.nodup_cons.1 h).1 (by rw [he]; exact hxmem)
      have hget : (x :: xs).get ⟨j + 1, hj⟩ = xs.get ⟨j, hj'⟩ := rfl
      rw [hget, posOf, if_neg hne, ih (List.nodup_cons.1 h).2 j hj']
      rfl

theorem replaceSection_map_id (db : DB) (s : Sec) :
    (replaceSection db s).sections.map Sec.id = db.sections.map Sec.id := by
  unfold replaceSection
  simp only [List.map_map]
  apply List.map_congr_left
  intro t _
  simp only [Function.comp]
  by_cases h : t.id = s.id
  · simp [h]
  · simp [h]

/-- What the update loop of `reorder_sections` writes: every section whose
id occurs in the list gets `order_index := idx + position`, everything
else — documents, links, and unlisted sections — is untouched. -/
theorem reorderApply_spec :
    ∀ (sids : List String) (db : DB), NodupSectionIds db → sids.Nodup → ∀ idx : Nat,
      (reorderApply db idx sids).2.documents = db.documents ∧
      (reorderApply db idx sids).2.links = db.links ∧
      (reorderApply db idx sids).2.sections = db.sections.map (fun s =>
        match posOf sids s.id with
        | some j => { s with order_index := ((idx + j : Nat) : Int) }
        | none => s) := by
  intro sids
  induction sids with
  | nil =>
    intro db _ _ idx
    refine ⟨rfl, rfl, ?_⟩
    simp [reorderApply, posOf]
  | cons sid rest ih =>
    intro db hn hnodup idx
    rw [reorderApply]
    cases hf : findSection db sid with
    | none =>
      have hnone : ∀ s ∈ db.sections, s.id ≠ sid := by
        intro s hs he
        have := List.find?_eq_none.1 hf s hs
        simp [he] at this
      obtain ⟨hd1, hd2, hd3⟩ := ih db hn (List.nodup_cons.1 hnodup).2 (idx + 1)
      refine ⟨hd1, hd2, ?_⟩
      rw [hd3]
      apply List.map_congr_left
      intro s hs
      rw [posOf, if_neg (fun he => hnone s hs he.symm)]
      cases hp : posOf rest s.id with
      | none => simp [hp]
      | some j =>
        simp only [hp, Option.map_some']
        have harith : idx + 1 + j = idx + (j + 1) := by omega
        rw [harith]
    | some s0 =>
      obtain ⟨hs0m, hs0id⟩ := findSection_mem hf
      have hmap1 : (replaceSection db { s0 with order_index := (idx : Int) }).sections =
          db.sections.map (fun t =>
            if t.id = sid then { t with order_index := ((idx : Nat) : Int) } else t) := by
        unfold replaceSection
        apply List.map_congr_left
        intro t ht
        by_cases hts : t.id = sid
        · have hteq : t = s0 := sec_eq_of_id_eq hn ht hs0m (hts.trans hs0id.symm)
          rw [if_pos (by simp [hs0id, hts]), if_pos hts, hteq]
        · rw [if_neg (by simp [hs0id]; exact hts), if_neg hts]
      have hn1 : NodupSectionIds (replaceSection db { s0 with order_index := (idx : Int) }) := by
        unfold NodupSectionIds
        rw [replaceSection_map_id]
        exact hn
      obtain ⟨hd1, hd2, hd3⟩ := ih _ hn1 (List.nodup_cons.1 hnodup).2 (idx + 1)
      refine ⟨by rw [hd1]; rfl, by rw [hd2]; rfl, ?_⟩
      rw [hd3, hmap1, List.map_map]
      apply List.map_congr_left
      intro t ht
      simp only [Function.comp]
      by_cases hts : t.id = sid
      · have hrest_none : posOf rest sid = none :=
          posOf_eq_none.2 (List.nodup_cons.1 hnodup).1
        rw [if_pos hts]
        have hid2 : ({ t with order_index := ((idx : Nat) : Int) } : Sec).id = t.id := rfl
        rw [posOf, if_pos hts.symm]
        rw [hid2, hts, hrest_none]
        rfl
      · rw [if_neg hts]
        rw [posOf, if_neg (fun he => hts he.symm)]
        cases hp : posOf rest t.id with
        | none => simp [hp]
        | some j =>
          simp only [hp, Option.map_some']
          have harith : idx + 1 + j = idx + (j + 1) := by omega
          rw [harith]


/-! ### Reorder semantics (claim C5) -/

theorem reorderUpdate_id (sids : List String) (s : Sec) :
    (reorderUpdate sids s).id = s.id := by
  unfold reorderUpdate; split <;> rfl

theorem reorderUpdate_parent (sids : List String) (s : Sec) :
    (reorderUpdate sids s).parent_section_id = s.parent_section_id := by
  unfold reorderUpdate; split <;> rfl

theorem reorderUpdate_document (sids : List String) (s : Sec) :
    (reorderUpdate sids s).document_id = s.document_id := by
  unfold reorderUpdate; split <;> rfl

theorem reorderUpdate_not_listed {sids : List String} {s : Sec} (h : s.id ∉ sids) :
    reorderUpdate sids s = s := by
  unfold reorderUpdate; rw [posOf_eq_none.2 h]

theorem validateSectionIdsLoop_ok : ∀ (sids : List String),
    (∀ sid ∈ sids, validateSectionId sid = .ok ()) → validateSectionIdsLoop sids = .ok ()
  | [], _ => rfl
  | sid :: rest, h => by
    unfold validateSectionIdsLoop
    rw [h sid (List.mem_cons_self sid rest)]
    exact validateSectionIdsLoop_ok rest (fun x hx => h x (List.mem_cons_of_mem _ hx))

theorem reorderValidate_ok_iff (db : DB) (p' : Option String) (d' : String) :
    ∀ (sids : List String),
      (reorderValidate db p' d' sids = .ok () ↔
        ∀ sid ∈ sids, ∃ s, findSection db sid = some s ∧
          s.parent_section_id = p' ∧ s.document_id = d')
  | [] => by simp [reorderValidate]
  | sid :: rest => by
    unfold reorderValidate
    cases hf : findSection db sid with
    | none =>
      apply iff_of_false (by simp)
      intro hall
      obtain ⟨s, hs, _, _⟩ := hall sid (List.mem_cons_self _ _)
      rw [hf] at hs
      exact Option.noConfusion hs
    | some s =>
      dsimp only
      by_cases hp : s.parent_section_id ≠ p'
      · rw [if_pos hp]
        apply iff_of_false (by simp)
        intro hall
        obtain ⟨t, ht, htp, _⟩ := hall sid (List.mem_cons_self _ _)
        rw [hf] at ht
        injection ht with ht
        exact hp (by rw [ht]; exact htp)
      · rw [if_neg hp]
        push_neg at hp
        by_cases hd : s.document_id ≠ d'
        · rw [if_pos hd]
          apply iff_of_false (by simp)
          intro hall
          obtain ⟨t, ht, _, htd⟩ := hall sid (List.mem_cons_self _ _)
          rw [hf] at ht
          injection ht with ht
          exact hd (by rw [ht]; exact htd)
        · rw [if_neg hd]
          push_neg at hd
          rw [reorderValidate_ok_iff db p' d' rest]
          constructor
          · intro hall x hx
            rcases List.mem_cons.1 hx with hx | hx
            · exact ⟨s, by rw [hx]; exact hf, hp, hd⟩
            · exact hall x hx
          · intro hall x hx
            exact hall x (List.mem_cons_of_mem _ hx)

theorem reorderSectionsService_error_state : ∀ (st : SessionState) (p' : Option String)
    (so : List String) (e : Err),
    (reorderSectionsService st p' so).1 = .error e →
    (reorderSectionsService st p' so).2 = st := by
  intro st p' so e h
  cases so with
  | nil => rfl
  | cons first rest =>
    cases hv : validateSectionIdsLoop (first :: rest) with
    | error e' =>
      simp only [reorderSectionsService, hv]
    | ok u =>
      cases u
      simp only [reorderSectionsService, hv] at h ⊢
      cases p' with
      | some pid =>
        cases hfp : findSection st.current pid with
        | none => simp only [reordererReorderSections, hfp]
        | some p =>
          cases hrv : reorderValidate st.current (some pid) p.document_id (first :: rest) with
          | error e2 => simp only [reordererReorderSections, hfp, hrv]
          | ok u2 =>
            cases u2
            simp only [reordererReorderSections, hfp, hrv] at h
            exact absurd h (by simp)
      | none =>
        cases hfp : findSection st.current first with
        | none => simp only [reordererReorderSections, hfp]
        | some s =>
          cases hrv : reorderValidate st.current none s.document_id (first :: rest) with
          | error e2 => simp only [reordererReorderSections, hfp, hrv]
          | ok u2 =>
            cases u2
            simp only [reordererReorderSections, hfp, hrv] at h
            exact absurd h (by simp)

theorem reorderApply_snd_eq {db : DB} {sids : List String}
    (hn : NodupSectionIds db) (hnodup : sids.Nodup) :
    (reorderApply db 0 sids).2 = reorderedDB db sids := by
  obtain ⟨h1, h2, h3⟩ := reorderApply_spec sids db hn hnodup 0
  have heta : (reorderApply db 0 sids).2 =
      ⟨(reorderApply db 0 sids).2.documents, (reorderApply db 0 sids).2.sections,
        (reorderApply db 0 sids).2.links⟩ := rfl
  have hsec : (reorderApply db 0 sids).2.sections = reorderedSections db sids := by
    rw [h3]
    apply List.map_congr_left
    intro s _
    unfold reorderUpdate
    cases hp : posOf sids s.id with
    | none => rfl
    | some j =>
      dsimp only
      rw [Nat.zero_add]
  rw [heta, h1, h2, hsec]
  rfl

theorem pairwise_fst_lt_enumFrom {α : Type} :
    ∀ (l : List α) (n : Nat), List.Pairwise (fun p q : Nat × α => p.1 < q.1) (l.enumFrom n)
  | [], _ => List.Pairwise.nil
  | a :: l, n => by
    rw [show (a :: l).enumFrom n = (n, a) :: l.enumFrom (n + 1) from rfl]
    refine List.Pairwise.cons ?_ (pairwise_fst_lt_enumFrom l (n + 1))
    intro q hq
    have h1 : n + 1 ≤ q.1 := (List.mem_enumFrom hq).1
    show n < q.1
    omega

theorem reorder_readback {db : DB} (hn : NodupSectionIds db)
    (secs : List Sec) (sids : List String) (P : Sec → Bool)
    (hids : sids = secs.map Sec.id) (hnodup : sids.Nodup)
    (hmem : ∀ s ∈ secs, s ∈ db.sections)
    (hP : ∀ s ∈ secs, P (reorderUpdate sids s) = true) :
    ((sortByOrderIndex ((reorderedDB db sids).sections.filter P)).filter
      (fun s => decide (s.id ∈ sids))).map Sec.id = sids := by
  subst hids
  have hsecs_nodup : secs.Nodup := hnodup.of_map Sec.id
  have hn' : (db.sections.map Sec.id).Nodup := hn
  have hdb_nodup : db.sections.Nodup := hn'.of_map Sec.id
  have hstep : (((reorderedDB db (secs.map Sec.id)).sections.filter P)).filter
      (fun s => decide (s.id ∈ secs.map Sec.id)) =
      (db.sections.filter (fun t =>
        decide ((reorderUpdate (secs.map Sec.id) t).id ∈ secs.map Sec.id)
        && P (reorderUpdate (secs.map Sec.id) t))).map (reorderUpdate (secs.map Sec.id)) := by
    rw [List.filter_filter]
    show (db.sections.map (reorderUpdate (secs.map Sec.id))).filter
        (fun a => decide (a.id ∈ secs.map Sec.id) && P a) =
      (db.sections.filter (fun t =>
        decide ((reorderUpdate (secs.map Sec.id) t).id ∈ secs.map Sec.id)
        && P (reorderUpdate (secs.map Sec.id) t))).map (reorderUpdate (secs.map Sec.id))
    rw [List.filter_map]
    rfl
  have hpermC : (db.sections.filter (fun t =>
      decide ((reorderUpdate (secs.map Sec.id) t).id ∈ secs.map Sec.id)
      && P (reorderUpdate (secs.map Sec.id) t))).Perm secs := by
    apply List.Subperm.antisymm
    · apply List.subperm_of_subset ((List.filter_sublist _).nodup hdb_nodup)
      intro t ht
      obtain ⟨htdb, hcond⟩ := List.mem_filter.1 ht
      simp only [Bool.and_eq_true, decide_eq_true_eq] at hcond
      have hL : (reorderUpdate (secs.map Sec.id) t).id ∈ secs.map Sec.id := hcond.1
      rw [reorderUpdate_id] at hL
      obtain ⟨s, hs, hsid⟩ := List.mem_map.1 hL
      have hst : s = t := sec_eq_of_id_eq hn (hmem s hs) htdb hsid
      rw [← hst]
      exact hs
    · apply List.subperm_of_subset hsecs_nodup
      intro s hs
      refine List.mem_filter.2 ⟨hmem s hs, ?_⟩
      have h1 : (reorderUpdate (secs.map Sec.id) s).id ∈ secs.map Sec.id := by
        rw [reorderUpdate_id]
        exact List.mem_map_of_mem Sec.id hs
      simp only [Bool.and_eq_true, decide_eq_true_eq]
      exact ⟨h1, hP s hs⟩
  have hpermA : ((sortByOrderIndex ((reorderedDB db (secs.map Sec.id)).sections.filter P)).filter
      (fun s => decide (s.id ∈ secs.map Sec.id))).Perm
      (secs.map (reorderUpdate (secs.map Sec.id))) := by
    have h1 := (List.perm_insertionSort secLE
      ((reorderedDB db (secs.map Sec.id)).sections.filter P)).filter
      (fun s => decide (s.id ∈ secs.map Sec.id))
    rw [hstep] at h1
    exact h1.trans (hpermC.map _)
  have hBdef : secs.map (reorderUpdate (secs.map Sec.id)) =
      secs.enum.map (fun p => { p.2 with order_index := (p.1 : Int) }) := by
    apply List.ext_get
    · simp [List.enum_length]
    · intro i h1 h2
      simp only [List.get_eq_getElem, List.getElem_map, List.getElem_enum]
      have hi : i < secs.length := by simpa using h1
      have hi' : i < (secs.map Sec.id).length := by simpa using hi
      have hpos : posOf (secs.map Sec.id) secs[i].id = some i := by
        have hx : secs[i].id = (secs.map Sec.id).get ⟨i, hi'⟩ := by
          simp [List.get_eq_getElem, List.getElem_map]
        rw [hx]
        exact posOf_get hnodup i hi'
      unfold reorderUpdate
      rw [hpos]
  have henum : List.Pairwise (fun p q : Nat × Sec => p.1 < q.1) secs.enum :=
    pairwise_fst_lt_enumFrom secs 0
  have hBsorted : List.Pairwise (fun a b : Sec => a.order_index < b.order_index)
      (secs.enum.map (fun p => { p.2 with order_index := (p.1 : Int) })) := by
    rw [List.pairwise_map]
    exact henum.imp (fun {p q} h =>
      show ((p.1 : Int) < (q.1 : Int)) from Int.ofNat_lt.2 h)
  have hBkeys : ((secs.enum.map (fun p => { p.2 with order_index := (p.1 : Int) })).map
      (fun s : Sec => s.order_index)).Nodup :=
    List.pairwise_map.2 (hBsorted.imp (fun h => ne_of_lt h))
  have hAkeys : ((((sortByOrderIndex
      ((reorderedDB db (secs.map Sec.id)).sections.filter P)).filter
      (fun s => decide (s.id ∈ secs.map Sec.id)))).map (fun s : Sec => s.order_index)).Nodup := by
    have h2 : ((secs.map (reorderUpdate (secs.map Sec.id))).map
        (fun s : Sec => s.order_index)).Nodup := by
      rw [hBdef]
      exact hBkeys
    exact (hpermA.map (fun s : Sec => s.order_index)).nodup_iff.2 h2
  have hAsortedLE : List.Pairwise secLE ((sortByOrderIndex
      ((reorderedDB db (secs.map Sec.id)).sections.filter P)).filter
      (fun s => decide (s.id ∈ secs.map Sec.id))) :=
    (List.sorted_insertionSort secLE _).filter _
  have hAsorted : List.Pairwise (fun a b : Sec => a.order_index < b.order_index)
      ((sortByOrderIndex ((reorderedDB db (secs.map Sec.id)).sections.filter P)).filter
      (fun s => decide (s.id ∈ secs.map Sec.id))) := by
    have hne2 : List.Pairwise (fun a b : Sec => a.order_index ≠ b.order_index)
        ((sortByOrderIndex ((reorderedDB db (secs.map Sec.id)).sections.filter P)).filter
        (fun s => decide (s.id ∈ secs.map Sec.id))) :=
      List.pairwise_map.1 hAkeys
    exact (List.Pairwise.and hAsortedLE hne2).imp (fun h => lt_of_le_of_ne h.1 h.2)
  haveI : IsAntisymm Sec (fun a b : Sec => a.order_index < b.order_index) :=
    ⟨fun a b h1 h2 => absurd (h1.trans h2) (lt_irrefl _)⟩
  have hABeq : ((sortByOrderIndex
      ((reorderedDB db (secs.map Sec.id)).sections.filter P)).filter
      (fun s => decide (s.id ∈ secs.map Sec.id))) =
      secs.map (reorderUpdate (secs.map Sec.id)) := by
    refine List.eq_of_perm_of_sorted hpermA hAsorted ?_
    rw [hBdef]
    exact hBsorted
  rw [hABeq, List.map_map]
  apply List.map_congr_left
  intro s _
  exact reorderUpdate_id _ s

/-- C5: `reorder_sections(parent_id, [s1..sn])` on a store whose listed
sections all exist in the target scope assigns `order_index = i` (0-based
list position) to each listed section `si`, leaves unlisted sections with
their prior row (collisions tolerated), and reading the scope's children
back and restricting to the listed ids yields them in list order; an empty
list is rejected, the per-section validator accepts exactly the sections
of the scope, and any error leaves the session state untouched. -/
theorem claim_C5_reorder_sections
    (st : SessionState) (parent_section_id : Option String) (document_id : String)
    (secs : List Sec) (sids : List String)
    (hn : NodupSectionIds st.current)
    (hids : sids = secs.map Sec.id)
    (hne : secs ≠ [])
    (hnodup : sids.Nodup)
    (hscope : ∀ s ∈ secs, s ∈ st.current.sections ∧
      s.parent_section_id = parent_section_id ∧ s.document_id = document_id)
    (hvalid : ∀ sid ∈ sids, validateSectionId sid = .ok ())
    (hparent : ∀ pid, parent_section_id = some pid →
      ∃ p, findSection st.current pid = some p ∧ p.document_id = document_id) :
    (∃ upd, reorderSectionsService st parent_section_id sids =
        (.ok upd, commitS { st with current := reorderedDB st.current sids })) ∧
    (∀ (j : Nat) (hj : j < secs.length),
      { secs.get ⟨j, hj⟩ with order_index := (j : Int) } ∈
        (reorderedDB st.current sids).sections) ∧
    (∀ s ∈ st.current.sections, s.id ∉ sids →
      s ∈ (reorderedDB st.current sids).sections) ∧
    (((match parent_section_id with
        | some pid => getChildren (reorderedDB st.current sids) pid
        | none => getTopLevelSections (reorderedDB st.current sids) document_id).filter
        (fun s : Sec => decide (s.id ∈ sids))).map Sec.id = sids) ∧
    (∀ (st' : SessionState) (p' : Option String),
      reorderSectionsService st' p' [] =
        (.error (.validationErr "section_order must be a non-empty list" "section_order"),
          st')) ∧
    (∀ (db : DB) (p' : Option String) (d' : String) (sids' : List String),
      reorderValidate db p' d' sids' = .ok () ↔
        ∀ sid ∈ sids', ∃ s, findSection db sid = some s ∧
          s.parent_section_id = p' ∧ s.document_id = d') ∧
    (∀ (st' : SessionState) (p' : Option String) (so : List String) (e : Err),
      (reorderSectionsService st' p' so).1 = .error e →
      (reorderSectionsService st' p' so).2 = st') := by
  subst hids
  refine ⟨?_, ?_, ?_, ?_, fun st' p' => rfl,
    fun db p' d' sids' => reorderValidate_ok_iff db p' d' sids',
    fun st' p' so e h => reorderSectionsService_error_state st' p' so e h⟩
  · -- the successful run commits exactly the respecified store
    obtain ⟨s0, rest0, hsecs⟩ : ∃ a l, secs = a :: l := by
      cases secs with
      | nil => exact absurd rfl hne
      | cons a l => exact ⟨a, l, rfl⟩
    have hsids : secs.map Sec.id = s0.id :: rest0.map Sec.id := by rw [hsecs]; rfl
    have hloop : validateSectionIdsLoop (secs.map Sec.id) = .ok () :=
      validateSectionIdsLoop_ok (secs.map Sec.id) hvalid
    have hval : reorderValidate st.current parent_section_id document_id
        (secs.map Sec.id) = .ok () := by
      rw [reorderValidate_ok_iff]
      intro sid hsid
      obtain ⟨s, hs, hsid'⟩ := List.mem_map.1 hsid
      obtain ⟨hm, hp, hd⟩ := hscope s hs
      exact ⟨s, by rw [← hsid']; exact findSection_of_mem hn hm, hp, hd⟩
    have happly := reorderApply_snd_eq hn hnodup
    refine ⟨(reorderApply st.current 0 (secs.map Sec.id)).1, ?_⟩
    rw [hsids] at hloop hval happly ⊢
    cases parent_section_id with
    | some pid =>
      obtain ⟨p, hfp, hpd⟩ := hparent pid rfl
      simp only [reorderSectionsService, hloop, reordererReorderSections, hfp, hpd, hval]
      rw [happly]
    | none =>
      have hm0 : s0 ∈ secs := by rw [hsecs]; exact List.mem_cons_self _ _
      obtain ⟨hm0', hp0, hd0⟩ := hscope s0 hm0
      have hf0 : findSection st.current s0.id = some s0 := findSection_of_mem hn hm0'
      simp only [reorderSectionsService, hloop, reordererReorderSections, hf0, hd0, hval]
      rw [happly]
  · -- each listed section gets its position
    intro j hj
    show { secs.get ⟨j, hj⟩ with order_index := (j : Int) } ∈
      st.current.sections.map (reorderUpdate (secs.map Sec.id))
    have hj' : j < (secs.map Sec.id).length := by simpa using hj
    have hpos : posOf (secs.map Sec.id) (secs.get ⟨j, hj⟩).id = some j := by
      have hx : (secs.get ⟨j, hj⟩).id = (secs.map Sec.id).get ⟨j, hj'⟩ := by
        simp [List.get_eq_getElem, List.getElem_map]
      rw [hx]
      exact posOf_get hnodup j hj'
    have hFs : reorderUpdate (secs.map Sec.id) (secs.get ⟨j, hj⟩) =
        { secs.get ⟨j, hj⟩ with order_index := (j : Int) } := by
      unfold reorderUpdate
      rw [hpos]
    rw [← hFs]
    exact List.mem_map_of_mem _ ((hscope _ (List.get_mem secs j hj)).1)
  · -- unlisted sections are untouched
    intro s hs hnot
    show s ∈ st.current.sections.map (reorderUpdate (secs.map Sec.id))
    rw [← reorderUpdate_not_listed hnot]
    exact List.mem_map_of_mem _ hs
  · -- reading the scope back, the listed sections come out in list order
    cases parent_section_id with
    | some pid =>
      show ((getChildren (reorderedDB st.current (secs.map Sec.id)) pid).filter
        (fun s => decide (s.id ∈ secs.map Sec.id))).map Sec.id = secs.map Sec.id
      exact reorder_readback hn secs (secs.map Sec.id)
        (fun s => s.parent_section_id == some pid) rfl hnodup
        (fun s hs => (hscope s hs).1)
        (fun s hs => by
          show ((reorderUpdate (secs.map Sec.id) s).parent_section_id == some pid) = true
          rw [reorderUpdate_parent, (hscope s hs).2.1]
          simp)
    | none =>
      show ((getTopLevelSections (reorderedDB st.current (secs.map Sec.id))
          document_id).filter
        (fun s => decide (s.id ∈ secs.map Sec.id))).map Sec.id = secs.map Sec.id
      exact reorder_readback hn secs (secs.map Sec.id)
        (fun s => s.document_id == document_id && s.parent_section_id == none) rfl hnodup
        (fun s hs => (hscope s hs).1)
        (fun s hs => by
          show ((reorderUpdate (secs.map Sec.id) s).document_id == document_id
            && (reorderUpdate (secs.map Sec.id) s).parent_section_id == none) = true
          rw [reorderUpdate_document, reorderUpdate_parent,
            (hscope s hs).2.2, (hscope s hs).2.1]
          simp)

/-- Witness for C5: reordering the top-level sections of `D1` to
`[sc, sa]` commits positions 0 and 1 and reads back in that order. -/
theorem claim_C5_witness :
    (∃ upd, reorderSectionsService stR none ["sc", "sa"] =
        (.ok upd, commitS { stR with current := reorderedDB stR.current ["sc", "sa"] })) ∧
    ((getTopLevelSections (reorderedDB stR.current ["sc", "sa"]) "D1").filter
      (fun s : Sec => decide (s.id ∈ ["sc", "sa"]))).map Sec.id = ["sc", "sa"] := by
  have h := claim_C5_reorder_sections stR none "D1"
    [{ id := "sc", document_id := "D1", parent_section_id := none,
       heading := "C", body := "", order_index := 5 },
     { id := "sa", document_id := "D1", parent_section_id := none,
       heading := "A", body := "", order_index := 0 }]
    ["sc", "sa"]
    (by decide) (by decide) (by decide) (by decide) (by decide) (by decide)
    (fun pid hp => Option.noConfusion hp)
  exact ⟨h.1, h.2.2.2.1⟩

/-! ### Error paths and session state (claim C4) -/

theorem reordererUpdateParent_error_state (st : SessionState) (section_id : String)
    (np : Option String) (oi : Option Int) (e : Err) :
    (reordererUpdateParent st section_id np oi).1 = .error e →
    (reordererUpdateParent st section_id np oi).2 = st := by
  unfold reordererUpdateParent
  try dsimp only
  repeat' split
  all_goals first
    | exact fun h => rfl
    | (intro h; simp at h)

theorem updateParentService_error_state (st : SessionState) (section_id : String)
    (np : Option String) (oi : Option Int) (e : Err) :
    (updateParentService st section_id np oi).1 = .error e →
    (updateParentService st section_id np oi).2 = st := by
  unfold updateParentService
  try dsimp only
  repeat' split
  all_goals first
    | exact fun h => rfl
    | (intro h; simp at h)
    | exact reordererUpdateParent_error_state _ _ _ _ _

theorem createSectionService_error_state (st : SessionState)
    (document_id heading body : String) (ps : Option String) (oi : Option Int)
    (section_id : Option String) (gid : String) (e : Err) :
    (createSectionService st document_id heading body ps oi section_id gid).1 = .error e →
    (createSectionService st document_id heading body ps oi section_id gid).2 = st := by
  unfold createSectionService
  try dsimp only
  repeat' split
  all_goals first
    | exact fun h => rfl
    | (intro h; simp at h)

theorem updateSectionService_error_state (st : SessionState) (section_id : String)
    (heading : Option String) (body : Option String) (oi : Option Int) (e : Err) :
    (updateSectionService st section_id heading body oi).1 = .error e →
    (updateSectionService st section_id heading body oi).2 = st := by
  unfold updateSectionService
  try dsimp only
  repeat' split
  all_goals first
    | exact fun h => rfl
    | (intro h; simp at h)

theorem deleteSectionService_error_state (st : SessionState) (section_id : String)
    (e : Err) :
    (deleteSectionService st section_id).1 = .error e →
    (deleteSectionService st section_id).2 = st := by
  unfold deleteSectionService
  try dsimp only
  repeat' split
  all_goals first
    | exact fun h => rfl
    | (intro h; simp at h)

theorem updateDocumentService_error_state (st : SessionState) (document_id : String)
    (title : Option String) (e : Err) :
    (updateDocumentService st document_id title).1 = .error e →
    (updateDocumentService st document_id title).2 = st := by
  unfold updateDocumentService
  try dsimp only
  repeat' split
  all_goals first
    | exact fun h => rfl
    | (intro h; simp at h)

theorem deleteDocumentService_error_state (st : SessionState) (document_id : String)
    (e : Err) :
    (deleteDocumentService st document_id).1 = .error e →
    (deleteDocumentService st document_id).2 = st := by
  unfold deleteDocumentService
  try dsimp only
  repeat' split
  all_goals first
    | exact fun h => rfl
    | (intro h; simp at h)

theorem linkSectionService_error_state (st : SessionState)
    (section_id lt tg : String) (lid : Option String) (gid : String) (e : Err) :
    (linkSectionService st section_id lt tg lid gid).1 = .error e →
    (linkSectionService st section_id lt tg lid gid).2 = st := by
  unfold linkSectionService
  try dsimp only
  repeat' split
  all_goals first
    | exact fun h => rfl
    | (intro h; simp at h)

theorem linkDocumentService_error_state (st : SessionState)
    (document_id lt tg : String) (lid : Option String) (gid : String) (e : Err) :
    (linkDocumentService st document_id lt tg lid gid).1 = .error e →
    (linkDocumentService st document_id lt tg lid gid).2 = st := by
  unfold linkDocumentService
  try dsimp only
  repeat' split
  all_goals first
    | exact fun h => rfl
    | (intro h; simp at h)

theorem unlinkService_error_state (st : SessionState) (link_id : String) (e : Err) :
    (unlinkService st link_id).1 = .error e →
    (unlinkService st link_id).2 = st := by
  unfold unlinkService
  try dsimp only
  repeat' split
  all_goals first
    | exact fun h => rfl
    | (intro h; simp at h)

theorem createDocumentService_error_committed (st : SessionState) (title : String)
    (document_id : Option String) (gid : String)
    (initial_sections : List (InitialSectionData × String)) (e : Err) :
    (createDocumentService st title document_id gid initial_sections).1 = .error e →
    (createDocumentService st title document_id gid initial_sections).2.committed =
      st.committed := by
  unfold createDocumentService
  try dsimp only
  repeat' split
  all_goals first
    | exact fun h => rfl
    | (intro h; simp at h)

/-- Counterexample to C4 as stated: `create_document` with an invalid
initial section (missing `heading`) raises `ValidationError` and the
`except (DuplicateError, ValidationError): raise` clause re-raises it
without a rollback — the document flushed inside the `try` block stays
pending in the open session, so the session no longer shows the
pre-operation hierarchy (`current ≠ committed`). -/
theorem claim_C4_counterexample :
    (createDocumentService stE "T2" (some "D2") "gd" [(badInitialSection, "gs")]).1 =
      .error (.validationErr "Section heading is required" "heading") ∧
    (createDocumentService stE "T2" (some "D2") "gd" [(badInitialSection, "gs")]).2.current ≠
      (createDocumentService stE "T2" (some "D2") "gd"
        [(badInitialSection, "gs")]).2.committed := by
  decide

/-- C4 (amended): every modeled service operation other than
`create_document` returns the caller's session state unchanged whenever it
reports an error (their mutations happen only after all checks, so the
pre-operation hierarchy stays observable); `create_document` never alters
the committed store on an error, but — as the counterexample shows — a
`ValidationError`/`DuplicateError` raised while creating initial sections
is re-raised without a rollback, leaving the flushed document pending in
the open session. -/
theorem claim_C4_rollback_on_error :
    (∀ (st : SessionState) (sid : String) (np : Option String) (oi : Option Int) (e : Err),
      (updateParentService st sid np oi).1 = .error e →
      (updateParentService st sid np oi).2 = st) ∧
    (∀ (st : SessionState) (did heading body : String) (ps : Option String)
        (oi : Option Int) (sid : Option String) (gid : String) (e : Err),
      (createSectionService st did heading body ps oi sid gid).1 = .error e →
      (createSectionService st did heading body ps oi sid gid).2 = st) ∧
    (∀ (st : SessionState) (sid : String) (heading body : Option String)
        (oi : Option Int) (e : Err),
      (updateSectionService st sid heading body oi).1 = .error e →
      (updateSectionService st sid heading body oi).2 = st) ∧
    (∀ (st : SessionState) (p : Option String) (so : List String) (e : Err),
      (reorderSectionsService st p so).1 = .error e →
      (reorderSectionsService st p so).2 = st) ∧
    (∀ (st : SessionState) (sid : String) (e : Err),
      (deleteSectionService st sid).1 = .error e →
      (deleteSectionService st sid).2 = st) ∧
    (∀ (st : SessionState) (did : String) (title : Option String) (e : Err),
      (updateDocumentService st did title).1 = .error e →
      (updateDocumentService st did title).2 = st) ∧
    (∀ (st : SessionState) (did : String) (e : Err),
      (deleteDocumentService st did).1 = .error e →
      (deleteDocumentService st did).2 = st) ∧
    (∀ (st : SessionState) (sid lt tg : String) (lid : Option String) (gid : String)
        (e : Err),
      (linkSectionService st sid lt tg lid gid).1 = .error e →
      (linkSectionService st sid lt tg lid gid).2 = st) ∧
    (∀ (st : SessionState) (did lt tg : String) (lid : Option String) (gid : String)
        (e : Err),
      (linkDocumentService st did lt tg lid gid).1 = .error e →
      (linkDocumentService st did lt tg lid gid).2 = st) ∧
    (∀ (st : SessionState) (lid : String) (e : Err),
      (unlinkService st lid).1 = .error e →
      (unlinkService st lid).2 = st) ∧
    (∀ (st : SessionState) (title : String) (did : Option String) (gid : String)
        (init : List (InitialSectionData × String)) (e : Err),
      (createDocumentService st title did gid init).1 = .error e →
      (createDocumentService st title did gid init).2.committed = st.committed) :=
  ⟨updateParentService_error_state,
   createSectionService_error_state,
   updateSectionService_error_state,
   reorderSectionsService_error_state,
   deleteSectionService_error_state,
   updateDocumentService_error_state,
   deleteDocumentService_error_state,
   linkSectionService_error_state,
   linkDocumentService_error_state,
   unlinkService_error_state,
   createDocumentService_error_committed⟩

/-- Witness for C4 (amended): a failing `update_parent` call on a concrete
session returns it unchanged. -/
theorem claim_C4_witness :
    (updateParentService stW "" none none).1 =
      .error (.validationErr "Section ID cannot be empty" "id") ∧
    (updateParentService stW "" none none).2 = stW := by
  refine ⟨by decide, ?_⟩
  exact claim_C4_rollback_on_error.1 stW "" none none
    (.validationErr "Section ID cannot be empty" "id") (by decide)

end Docomatic
